import Mathlib

/-!
# The durable retry queue of maddy (`target/queue/queue.go`)

A shallow embedding of one delivery attempt (`Queue.deliver`), of the
bookkeeping around it (`Queue.tryDelivery`), of the retry schedule, of the DSN
that `Queue.emitDSN` builds, and of the functions that work on the queue
directory (`readDiskQueue`, `storeNewMessage`, `updateMetadataOnDisk`,
`openMessage`) with the worker that calls them.

Conventions of the embedding.

* Go `string` is `String`, Go `int` and `time.Duration` (int64 nanoseconds) are
  `Int`; a `time.Time` is an `Int` count of nanoseconds.
* A Go `map[string]V` is an association list with `mapGet` / `mapSet`; a
  `range` loop that stores every entry into another map is a fold, which for a
  map (distinct keys) does not depend on the iteration order.
* An `error` is a `GoError`; `nil` is `none`.
* The downstream delivery target is a function from the history of calls made
  on it so far to its answer to the last call of that history, so that every
  deterministic stateful target is covered.
* The queue directory is the list of its entries; a file is given by what the
  queue can read from it (`FileData`); a metadata file holds the encoding of
  the metadata written to it. Removing an existing entry succeeds; the other
  system calls can fail as their parameters say.
-/

namespace Maddy

/-! ## Errors -/

/-- The struct `smtp.SMTPError` of go-smtp. -/
structure SMTPError where
  Code : Int
  EnhancedCode : Int × Int × Int
  Message : String
deriving DecidableEq, Repr

/-- An `error` value, by the dynamic types that `queue.go` tells apart:
`*smtp.SMTPError`, `PartialError` (with its three fields) and anything else. -/
inductive GoError where
  | smtp (e : SMTPError)
  | partialError (Failed TemporaryFailed : List String) (Errs : List (String × GoError))
  | other (text : String)

mutual
/-- Decidable equality of errors. -/
def GoError.decEq : (a b : GoError) → Decidable (a = b)
  | .smtp e, .smtp f =>
    if h : e = f then isTrue (by rw [h]) else isFalse (by intro c; cases c; exact h rfl)
  | .other e, .other f =>
    if h : e = f then isTrue (by rw [h]) else isFalse (by intro c; cases c; exact h rfl)
  | .partialError f t m, .partialError f2 t2 m2 =>
    if h1 : f = f2 then
      if h2 : t = t2 then
        match GoError.decEqErrs m m2 with
        | isTrue h3 => isTrue (by rw [h1, h2, h3])
        | isFalse h3 => isFalse (by intro c; cases c; exact h3 rfl)
      else isFalse (by intro c; cases c; exact h2 rfl)
    else isFalse (by intro c; cases c; exact h1 rfl)
  | .smtp _, .partialError _ _ _ => isFalse (by intro c; cases c)
  | .smtp _, .other _ => isFalse (by intro c; cases c)
  | .other _, .partialError _ _ _ => isFalse (by intro c; cases c)
  | .other _, .smtp _ => isFalse (by intro c; cases c)
  | .partialError _ _ _, .smtp _ => isFalse (by intro c; cases c)
  | .partialError _ _ _, .other _ => isFalse (by intro c; cases c)
/-- Decidable equality of maps of errors. -/
def GoError.decEqErrs : (a b : List (String × GoError)) → Decidable (a = b)
  | [], [] => isTrue rfl
  | [], _ :: _ => isFalse (by intro c; cases c)
  | _ :: _, [] => isFalse (by intro c; cases c)
  | (k, e) :: m, (k2, e2) :: m2 =>
    if h1 : k = k2 then
      match GoError.decEq e e2 with
      | isTrue h2 =>
        match GoError.decEqErrs m m2 with
        | isTrue h3 => isTrue (by rw [h1, h2, h3])
        | isFalse h3 => isFalse (by intro c; cases c; exact h3 rfl)
      | isFalse h2 => isFalse (by intro c; cases c; exact h2 rfl)
    else isFalse (by intro c; cases c; exact h1 rfl)
end

instance : DecidableEq GoError := GoError.decEq

/-- What `queue.go` uses of errors without defining it: `target.IsTemporaryErr`
and the `Error()` method of an error value that is not an SMTP error. -/
structure Deps where
  IsTemporaryErr : GoError → Bool
  Error : GoError → String

/-! ## Maps -/

/-- The lookup `m[k]` of a Go map, with its `ok` flag as the option. -/
def mapGet {V : Type} : List (String × V) → String → Option V
  | [], _ => none
  | (k', v) :: m, k => if k' = k then some v else mapGet m k

/-- The assignment `m[k] = v` of a Go map: an existing entry is overwritten. -/
def mapSet {V : Type} : List (String × V) → String → V → List (String × V)
  | [], k, v => [(k, v)]
  | (k', v') :: m, k, v => if k' = k then (k, v) :: m else (k', v') :: mapSet m k v

/-- The loop `for _, rcpt := range rcpts { m[rcpt] = v }`. -/
def mapSetAll {V : Type} (m : List (String × V)) (rcpts : List String) (v : V) :
    List (String × V) :=
  rcpts.foldl (fun acc rcpt => mapSet acc rcpt v) m

/-- The loop `for k, v := range src { dst[k] = f v }`. The entries of `src` are
stored from the last to the first; `src` being a map, the order is immaterial. -/
def mapMerge {V W : Type} (f : V → W) (dst : List (String × W)) (src : List (String × V)) :
    List (String × W) :=
  src.foldr (fun p acc => mapSet acc p.1 (f p.2)) dst

/-! ## The data model -/

/-- The struct `PartialError`. -/
structure PartialError where
  Failed : List String
  TemporaryFailed : List String
  Errs : List (String × GoError)
deriving DecidableEq

/-- A `net.Addr`, by whether its dynamic type is `*net.TCPAddr`. -/
inductive NetAddr where
  | tcp (addr : String)
  | nonTCP (addr : String)
deriving DecidableEq, Repr

/-- The fields of `module.MsgMetadata` that the queue reads or writes. -/
structure MsgMetadata where
  ID : String
  SrcProto : String
  SrcHostname : String
  SrcAddr : Option NetAddr
  OriginalRcpts : Option (List (String × String))
  DontTraceSender : Bool
deriving DecidableEq, Repr

/-- The struct `QueueMetadata`. -/
structure QueueMetadata where
  MsgMeta : MsgMetadata
  From : String
  To : List String
  FailedRcpts : List String
  TemporaryFailedRcpts : List String
  RcptErrs : List (String × SMTPError)
  TriesCount : Int
  FirstAttempt : Int
  LastAttempt : Int
  DSN : Bool
deriving DecidableEq, Repr

/-- A call made on the downstream target or on the delivery object it returned. -/
inductive Call where
  | Start (mailFrom : String)
  | AddRcpt (rcpt : String)
  | Body
  | Commit
  | Abort
deriving DecidableEq, Repr

/-- A `module.DeliveryTarget`: the error returned by the last call of a history
of calls (`none` is `nil`). -/
abbrev DeliveryTarget := List Call → Option GoError

/-- The configuration fields of `Queue` that one attempt depends on. The source
keeps `retryTimeScale` as a `float64`; the embedding covers the scales that are
natural numbers (the only value `NewQueue` sets is 2). The field `roundedPow`
gives `time.Duration(math.Pow(retryTimeScale, float64(k)))` for the exponents
`k` at which float64 arithmetic does not yield the exact integer power: a power
of at least `2 ^ 53`, which is rounded or out of the range of int64, and a
negative power of the scale 0. -/
structure Queue where
  hostname : String
  autogenMsgDomain : String
  dsnDispatcher : Option DeliveryTarget
  initialRetryTime : Int
  retryTimeScale : Nat
  maxTries : Int
  postInitDelay : Int
  Target : DeliveryTarget
  roundedPow : Int → Int

/-! ## `Queue.deliver` -/

/-- The local variables of `deliver` that the recipient loop updates, with the
history of the calls made so far. -/
structure DeliverState where
  hist : List Call
  perr : PartialError
  acceptedRcpts : List String

/-- The loop `for _, rcpt := range meta.To` of `deliver` (lines 296-307). -/
def addRcpts (D : Deps) (tgt : DeliveryTarget) : List String → DeliverState → DeliverState
  | [], s => s
  | rcpt :: rest, s =>
    let h := s.hist ++ [Call.AddRcpt rcpt]
    match tgt h with
    | some err =>
      let perr1 : PartialError :=
        if D.IsTemporaryErr err then
          { s.perr with TemporaryFailed := s.perr.TemporaryFailed ++ [rcpt] }
        else
          { s.perr with Failed := s.perr.Failed ++ [rcpt] }
      addRcpts D tgt rest
        { hist := h, perr := { perr1 with Errs := mapSet perr1.Errs rcpt err },
          acceptedRcpts := s.acceptedRcpts }
    | none =>
      addRcpts D tgt rest
        { hist := h, perr := s.perr, acceptedRcpts := s.acceptedRcpts ++ [rcpt] }

/-- The closure `expandToPartialErr` of `deliver` (lines 316-333), as a function
of the captured `acceptedRcpts` and `perr`. -/
def expandToPartialErr (D : Deps) (acceptedRcpts : List String) (perr : PartialError)
    (err : GoError) : PartialError :=
  match err with
  | .partialError failed temporaryFailed errs =>
    { TemporaryFailed := perr.TemporaryFailed ++ temporaryFailed,
      Failed := perr.Failed ++ failed,
      Errs := mapMerge id perr.Errs errs }
  | _ =>
    let perr1 : PartialError :=
      if D.IsTemporaryErr err then
        { perr with TemporaryFailed := perr.TemporaryFailed ++ acceptedRcpts }
      else
        { perr with Failed := perr.Failed ++ acceptedRcpts }
    { perr1 with Errs := mapSetAll perr1.Errs acceptedRcpts err }

/-- The statement `if err := call(); err != nil { expandToPartialErr(err) }` of
`deliver` (lines 335-336 and 345-347), as a function of the answer of the call. -/
def expandAnswer (D : Deps) (acceptedRcpts : List String) (perr : PartialError)
    (answer : Option GoError) : PartialError :=
  match answer with
  | some err => expandToPartialErr D acceptedRcpts perr err
  | none => perr

/-- The body of `deliver` after the target is chosen (lines 286-349): the
returned `PartialError` and the history extended by the calls made. -/
def deliverTo (D : Deps) (tgt : DeliveryTarget) (md : QueueMetadata) (hist : List Call) :
    PartialError × List Call :=
  let perr : PartialError := { Failed := [], TemporaryFailed := [], Errs := [] }
  let h1 := hist ++ [Call.Start md.From]
  match tgt h1 with
  | some err =>
    ({ perr with Failed := perr.Failed ++ md.To, Errs := mapSetAll perr.Errs md.To err }, h1)
  | none =>
    let s := addRcpts D tgt md.To { hist := h1, perr := perr, acceptedRcpts := [] }
    if s.acceptedRcpts.length = 0 then
      (s.perr, s.hist ++ [Call.Abort])
    else
      let h2 := s.hist ++ [Call.Body]
      match tgt h2 with
      | some err =>
        let perr2 := expandToPartialErr D s.acceptedRcpts s.perr err
        if perr2.TemporaryFailed.length + perr2.Failed.length = s.acceptedRcpts.length then
          (perr2, h2 ++ [Call.Abort])
        else
          let h3 := h2 ++ [Call.Commit]
          match tgt h3 with
          | some err2 => (expandToPartialErr D s.acceptedRcpts perr2 err2, h3)
          | none => (perr2, h3)
      | none =>
        let h3 := h2 ++ [Call.Commit]
        match tgt h3 with
        | some err2 => (expandToPartialErr D s.acceptedRcpts s.perr err2, h3)
        | none => (s.perr, h3)

/-- The choice of `deliveryTarget` in `deliver` (lines 281-284). A DSN on a
queue without `dsnDispatcher` has no target to call: `none`. -/
def deliveryTarget (q : Queue) (md : QueueMetadata) : Option DeliveryTarget :=
  if md.DSN then q.dsnDispatcher else some q.Target

/-- The function `Queue.deliver`. -/
def deliver (D : Deps) (q : Queue) (md : QueueMetadata) (hist : List Call) :
    Option (PartialError × List Call) :=
  (deliveryTarget q md).map (fun tgt => deliverTo D tgt md hist)

/-! ## `Queue.tryDelivery` -/

/-- The conversion of `rcptErr` to `*smtp.SMTPError` in `tryDelivery`
(lines 228-240). -/
def toSMTPError (D : Deps) (rcptErr : GoError) : SMTPError :=
  match rcptErr with
  | .smtp e => e
  | _ =>
    let smtpErr : SMTPError :=
      { Code := 554, EnhancedCode := (5, 0, 0), Message := D.Error rcptErr }
    if D.IsTemporaryErr rcptErr then
      { smtpErr with Code := 451, EnhancedCode := (4, 0, 0) }
    else
      smtpErr

/-- Wrap-around of a mathematical integer to the int64 it is stored as. -/
def wrapInt64 (x : Int) : Int :=
  (x + 2 ^ 63) % 2 ^ 64 - 2 ^ 63

/-- The value `time.Duration(math.Pow(q.retryTimeScale, float64(k)))` of lines
269 and 495. With a natural exponent `math.Pow` multiplies mantissas, which is
exact as long as the power is below `2 ^ 53`; a negative power of a scale of at
least 2 is a fraction, which the conversion truncates to 0, and every power of 1
is 1. Elsewhere the value is what float64 rounding and the conversion to int64
make of it, `q.roundedPow k`. -/
def powDuration (q : Queue) (k : Int) : Int :=
  if 0 ≤ k then
    if q.retryTimeScale ^ k.toNat < 2 ^ 53 then (q.retryTimeScale : Int) ^ k.toNat
    else q.roundedPow k
  else if q.retryTimeScale = 1 then 1
  else if 2 ≤ q.retryTimeScale then 0
  else q.roundedPow k

/-- The retry delay `q.initialRetryTime * time.Duration(math.Pow(q.retryTimeScale,
float64(triesCount-1)))` of lines 269 and 495, an int64 product. -/
def retryDelay (q : Queue) (triesCount : Int) : Int :=
  wrapInt64 (q.initialRetryTime * powDuration q (triesCount - 1))

/-- What one run of `tryDelivery` reads from its environment: the two readings
of `time.Now()` (lines 246 and 268) and whether `os.Create` of the meta file
succeeds in `updateMetadataOnDisk`. -/
structure AttemptEnv where
  lastAttemptNow : Int
  scheduleNow : Int
  metaCreateOk : Bool
deriving DecidableEq, Repr

/-- The function `Queue.updateMetadataOnDisk` (lines 557-576): the caller's
metadata after the call, and the copy handed to the JSON encoder (`none` when
the file could not be created). -/
def updateMetadataOnDisk (createOk : Bool) (md : QueueMetadata) :
    QueueMetadata × Option QueueMetadata :=
  if createOk then
    let metaCopy := md
    match metaCopy.MsgMeta.SrcAddr with
    | some (NetAddr.tcp _) => (md, some metaCopy)
    | _ => ({ md with MsgMeta := { md.MsgMeta with SrcAddr := none } }, some metaCopy)
  else
    (md, none)

/-- The calls that `tryDelivery` makes on the rest of the queue, each with its
argument at the time of the call. -/
inductive Effect where
  | emitDSN (md : QueueMetadata)
  | removeFromDisk (id : String)
  | updateMetadataOnDisk (md : QueueMetadata)
  | wheelAdd (t : Int) (id : String)
deriving DecidableEq, Repr

/-- Whether an effect is a call of `q.wheel.Add`. -/
def Effect.isWheelAdd : Effect → Bool
  | Effect.wheelAdd _ _ => true
  | _ => false

/-- The outcome of one run of `tryDelivery`: the metadata as the run leaves it,
the history of the downstream calls, the calls made on the rest of the queue, in
order, and the metadata written to the meta file, if any. -/
structure AttemptResult where
  md : QueueMetadata
  hist : List Call
  effects : List Effect
  written : Option QueueMetadata
deriving DecidableEq

/-- The function `Queue.tryDelivery` (lines 217-273). -/
def tryDelivery (D : Deps) (q : Queue) (env : AttemptEnv) (md : QueueMetadata)
    (hist : List Call) : Option AttemptResult :=
  match deliver D q md hist with
  | none => none
  | some (partialErr, hist1) =>
    let md1 := { md with FailedRcpts := md.FailedRcpts ++ partialErr.Failed }
    let md2 := { md1 with RcptErrs := mapMerge (toSMTPError D) md1.RcptErrs partialErr.Errs }
    let md3 := { md2 with To := partialErr.TemporaryFailed }
    let md4 := { md3 with LastAttempt := env.lastAttemptNow }
    if md4.TriesCount = q.maxTries ∨ partialErr.TemporaryFailed.length = 0 then
      some
        { md := md4, hist := hist1,
          effects := (if !md4.DSN then [Effect.emitDSN md4] else []) ++
            [Effect.removeFromDisk md4.MsgMeta.ID],
          written := none }
    else
      let md5 := { md4 with TriesCount := md4.TriesCount + 1 }
      let upd := updateMetadataOnDisk env.metaCreateOk md5
      let nextTryTime := env.scheduleNow + retryDelay q upd.1.TriesCount
      some
        { md := upd.1, hist := hist1,
          effects := [Effect.updateMetadataOnDisk md5, Effect.wheelAdd nextTryTime upd.1.MsgMeta.ID],
          written := upd.2 }

/-- Whether the run put the message back on the wheel. -/
def AttemptResult.scheduled (r : AttemptResult) : Bool :=
  r.effects.any (fun e => match e with
    | Effect.wheelAdd _ _ => true
    | _ => false)

/-! ## Entering the queue -/

/-- The metadata that `Queue.Start` creates (lines 402-411). -/
def Start (msgMeta : MsgMetadata) (mailFrom : String) (now1 now2 : Int) : QueueMetadata :=
  { MsgMeta := msgMeta, From := mailFrom, To := [], FailedRcpts := [],
    TemporaryFailedRcpts := [], RcptErrs := [], TriesCount := 0,
    FirstAttempt := now1, LastAttempt := now2, DSN := false }

/-- The metadata that `Queue.StartDSN` creates (lines 413-423). -/
def StartDSN (msgMeta : MsgMetadata) (mailFrom : String) (now1 now2 : Int) : QueueMetadata :=
  { MsgMeta := msgMeta, From := mailFrom, To := [], FailedRcpts := [],
    TemporaryFailedRcpts := [], RcptErrs := [], TriesCount := 0,
    FirstAttempt := now1, LastAttempt := now2, DSN := true }

/-- The method `queueDelivery.AddRcpt` (lines 360-363). -/
def queueAddRcpt (md : QueueMetadata) (rcptTo : String) : QueueMetadata :=
  { md with To := md.To ++ [rcptTo] }

/-- The source address that `json.Decoder` reads back into the `*net.TCPAddr`
that `readMessageMeta` presets (lines 588-592): null gives nil, a TCP address
gives itself, and the encoding of an address of another type, taken to have
none of the fields of `net.TCPAddr` (as that of a `*net.UnixAddr`), leaves the
zero TCP address. -/
def decodeSrcAddr : Option NetAddr → Option NetAddr
  | none => none
  | some (NetAddr.tcp addr) => some (NetAddr.tcp addr)
  | some (NetAddr.nonTCP _) => some (NetAddr.tcp ":0")

/-- The metadata that `json.Decoder` reads back from the encoding of `md`. -/
def decodeMeta (md : QueueMetadata) : QueueMetadata :=
  { md with MsgMeta := { md.MsgMeta with SrcAddr := decodeSrcAddr md.MsgMeta.SrcAddr } }

/-- The successive runs of `tryDelivery` on one message: `Commit` starts the
first one on the metadata in memory; whenever a run puts the id on the wheel, a
worker later reads the meta file back and runs `tryDelivery` on it. The file
holds what the run wrote, or, when the write failed, what the run had started
from. At most `fuel` runs are listed. -/
def attempts (D : Deps) (q : Queue) (env : AttemptEnv) :
    Nat → QueueMetadata → List Call → List AttemptResult
  | 0, _, _ => []
  | fuel + 1, md, hist =>
    match tryDelivery D q env md hist with
    | none => []
    | some r =>
      if r.scheduled then
        r :: attempts D q env fuel (decodeMeta (r.written.getD md)) r.hist
      else [r]

/-! ## `Queue.emitDSN` -/

/-- The struct `dsn.RecipientInfo`, by the fields that `emitDSN` fills. -/
structure RecipientInfo where
  FinalRecipient : String
  Action : String
  Status : Int × Int × Int
  DiagnosticCode : SMTPError
deriving DecidableEq, Repr

/-- What `emitDSN` hands to `dsn.GenerateDSN` and to `StartDSN`: the envelope,
the reporting MTA information and the recipient entries. -/
structure DSNRequest where
  MsgID : String
  From : String
  To : String
  ReportingMTA : String
  XSender : String
  XMessageID : String
  ArrivalDate : Int
  LastAttemptDate : Int
  ReceivedFromMTA : String
  rcptInfo : List RecipientInfo
deriving DecidableEq, Repr

/-- The recipient entry that the loop of lines 686-700 appends for one entry of
`meta.RcptErrs`. -/
def dsnRecipient (msgMeta : MsgMetadata) (entry : String × SMTPError) : RecipientInfo :=
  let rcpt :=
    match msgMeta.OriginalRcpts with
    | some originalRcpts =>
      let originalRcpt := (mapGet originalRcpts entry.1).getD ""
      if originalRcpt ≠ "" then originalRcpt else entry.1
    | none => entry.1
  { FinalRecipient := rcpt, Action := "failed", Status := entry.2.EnhancedCode,
    DiagnosticCode := entry.2 }

/-- The function `Queue.emitDSN` up to the call of `dsn.GenerateDSN`
(lines 657-704), given the id that `dispatcher.GenerateMsgID` returned: `none`
when no `dsnDispatcher` is configured. -/
def emitDSN (q : Queue) (md : QueueMetadata) (dsnID : String) : Option DSNRequest :=
  match q.dsnDispatcher with
  | none => none
  | some _ =>
    some
      { MsgID := "<" ++ dsnID ++ "@" ++ q.autogenMsgDomain ++ ">",
        From := "MAILER-DAEMON@" ++ q.autogenMsgDomain,
        To := md.From,
        ReportingMTA := q.hostname,
        XSender := md.From,
        XMessageID := md.MsgMeta.ID,
        ArrivalDate := md.FirstAttempt,
        LastAttemptDate := md.LastAttempt,
        ReceivedFromMTA := if !md.MsgMeta.DontTraceSender then md.MsgMeta.SrcHostname else "",
        rcptInfo := md.RcptErrs.map (dsnRecipient md.MsgMeta) }

/-! ## What the recipient stage should compute -/

/-- The answers of the target when the recipients are offered to `AddRcpt` once
each, in order, after the history `hist`. -/
def offered (tgt : DeliveryTarget) : List Call → List String → List (String × Option GoError)
  | _, [] => []
  | hist, rcpt :: rest =>
    (rcpt, tgt (hist ++ [Call.AddRcpt rcpt])) :: offered tgt (hist ++ [Call.AddRcpt rcpt]) rest

/-- The recipients whose answer was `nil`. -/
def answeredNil (answers : List (String × Option GoError)) : List String :=
  (answers.filter (fun p => p.2.isNone)).map Prod.fst

/-- The recipients whose answer was an error on which `IsTemporaryErr` gives `temporary`. -/
def answeredErr (D : Deps) (temporary : Bool) (answers : List (String × Option GoError)) :
    List String :=
  (answers.filter (fun p =>
    match p.2 with
    | some e => D.IsTemporaryErr e == temporary
    | none => false)).map Prod.fst

/-- The error of the last answer to `rcpt` that was an error, if any. -/
def lastErr : List (String × Option GoError) → String → Option GoError
  | [], _ => none
  | (r, a) :: rest, rcpt =>
    match lastErr rest rcpt with
    | some e => some e
    | none => if r = rcpt then a else none

/-! ## Sample inputs -/

/-- A sample `IsTemporaryErr`: an SMTP error with a 4xx code, or the marker text. -/
def sampleIsTemporaryErr : GoError → Bool
  | .smtp e => decide (e.Code / 100 = 4)
  | .other text => decide (text = "try again later")
  | .partialError _ _ _ => false

/-- The verb `%v` of `fmt` on a `[]string`. -/
def fmtStrings (xs : List String) : String :=
  "[" ++ " ".intercalate xs ++ "]"

/-- Insertion of a map entry before the first entry with a greater key; an
entry with the same key is replaced. -/
def insertByKey (p : String × String) : List (String × String) → List (String × String)
  | [] => [p]
  | x :: rest =>
    if p.1 < x.1 then p :: x :: rest
    else if p.1 = x.1 then p :: rest
    else x :: insertByKey p rest

/-- The verb `%v` of `fmt` on a `map[string]error`, given the text of each
error: the entries are printed in the order of their keys, each key once, with
the value that `mapGet` finds. -/
def fmtErrs (entries : List (String × String)) : String :=
  "map[" ++ " ".intercalate ((entries.foldr insertByKey []).map (fun p => p.1 ++ ":" ++ p.2)) ++
    "]"

mutual
/-- A sample `Error()`: the message of an SMTP error, the text of a plain error,
and `PartialError.Error` (lines 48-50) for a `PartialError`. -/
def sampleError : GoError → String
  | .smtp e => e.Message
  | .other text => text
  | .partialError failed temporaryFailed errs =>
    "delivery failed for some recipients (permanently: " ++ fmtStrings failed ++
      ", temporary: " ++ fmtStrings temporaryFailed ++ "): " ++ fmtErrs (sampleErrorEntries errs)
/-- The text of each error of a map. -/
def sampleErrorEntries : List (String × GoError) → List (String × String)
  | [] => []
  | (k, e) :: rest => (k, sampleError e) :: sampleErrorEntries rest
end

/-- Sample external functions. -/
def sampleDeps : Deps :=
  { IsTemporaryErr := sampleIsTemporaryErr, Error := sampleError }

/-- A sample message. -/
def sampleMsgMeta : MsgMetadata :=
  { ID := "msg1", SrcProto := "ESMTP", SrcHostname := "client.example.org", SrcAddr := none,
    OriginalRcpts := none, DontTraceSender := false }

/-- A target that accepts everything. -/
def acceptAll : DeliveryTarget := fun _ => none

/-- A sample permanent SMTP error. -/
def sampleReject : GoError :=
  .smtp { Code := 550, EnhancedCode := (5, 1, 1), Message := "no such user" }

/-- A target whose `Start` fails. -/
def startFails : DeliveryTarget := fun hist =>
  match hist.getLast? with
  | some (Call.Start _) => some sampleReject
  | _ => none

/-- A target that rejects every recipient temporarily. -/
def greylisting : DeliveryTarget := fun hist =>
  match hist.getLast? with
  | some (Call.AddRcpt _) => some (.other "try again later")
  | _ => none

/-- A target that rejects the recipient `a@example.org` for good and fails `Body`. -/
def rejectOneFailBody : DeliveryTarget := fun hist =>
  match hist.getLast? with
  | some (Call.AddRcpt rcpt) => if rcpt = "a@example.org" then some sampleReject else none
  | some Call.Body => some (.other "connection lost")
  | _ => none

/-- A target that rejects `a@example.org` for good, `b@example.org` temporarily. -/
def rejectTwo : DeliveryTarget := fun hist =>
  match hist.getLast? with
  | some (Call.AddRcpt rcpt) =>
    if rcpt = "a@example.org" then some sampleReject
    else if rcpt = "b@example.org" then some (.other "try again later")
    else none
  | _ => none

/-- The value `time.Duration(math.Pow(2, float64(k)))` for `k` of at least 53:
a power of two is exact in float64, and the conversion of one that is out of
the range of int64 gives the least int64 (on amd64). -/
def roundedPowOfTwo (k : Int) : Int :=
  if k < 63 then 2 ^ k.toNat else -(2 ^ 63)

/-- A sample queue with the defaults of `NewQueue` and `Init`, a bounce
dispatcher, and the given target. -/
def sampleQueue (tgt : DeliveryTarget) : Queue :=
  { hostname := "mx.example.net", autogenMsgDomain := "example.net",
    dsnDispatcher := some acceptAll, initialRetryTime := 900000000000, retryTimeScale := 2,
    maxTries := 8, postInitDelay := 10000000000, Target := tgt,
    roundedPow := roundedPowOfTwo }

/-- A message entered through `Start` and `AddRcpt` with the given recipients. -/
def sampleMeta (rcpts : List String) : QueueMetadata :=
  rcpts.foldl queueAddRcpt (Start sampleMsgMeta "sender@example.org" 1000 1001)

/-- A sample environment of one attempt. -/
def sampleEnv : AttemptEnv :=
  { lastAttemptNow := 2000, scheduleNow := 2001, metaCreateOk := true }

/-- A target whose `Body` fails for two of the recipients with a `PartialError`. -/
def bodyFailsForTwo : DeliveryTarget := fun hist =>
  match hist.getLast? with
  | some Call.Body =>
    some (.partialError ["a@example.org"] ["b@example.org"]
      [("a@example.org", sampleReject), ("b@example.org", .other "try again later")])
  | _ => none

/-- The sample queue with another `max_tries`. -/
def sampleQueueTries (tgt : DeliveryTarget) (maxTries : Int) : Queue :=
  { sampleQueue tgt with maxTries := maxTries }

/-! ## The DSN that `emitDSN` enqueues -/

/-- The metadata of the message that `emitDSN` enters into the queue
(lines 711-738): `StartDSN` with a fresh `module.MsgMetadata`, then `AddRcpt`
of the original sender. `none` when `emitDSN` returns before building a DSN. -/
def emitDSNMetadata (q : Queue) (md : QueueMetadata) (dsnID : String) (now1 now2 : Int) :
    Option QueueMetadata :=
  (emitDSN q md dsnID).map (fun _ =>
    queueAddRcpt
      (StartDSN
        { ID := dsnID, SrcProto := "", SrcHostname := q.hostname, SrcAddr := none,
          OriginalRcpts := none, DontTraceSender := false }
        ("MAILER-DAEMON@" ++ q.autogenMsgDomain) now1 now2)
      md.From)

/-- Whether an effect is a call of `q.emitDSN`. -/
def Effect.isEmitDSN : Effect → Bool
  | Effect.emitDSN _ => true
  | _ => false

/-- A `PartialError` returned as an error is well formed when its `Errs` has an
entry for every recipient of its `Failed` and `TemporaryFailed` lists. -/
def wellFormedError : GoError → Prop
  | .partialError failed temporaryFailed errs =>
    ∀ rcpt, rcpt ∈ failed ++ temporaryFailed → (mapGet errs rcpt).isSome = true
  | _ => True

/-- Every recipient of the list has a key in the map. -/
def allKeyed {V : Type} (rcpts : List String) (m : List (String × V)) : Prop :=
  ∀ rcpt, rcpt ∈ rcpts → (mapGet m rcpt).isSome = true

instance {V : Type} (rcpts : List String) (m : List (String × V)) : Decidable (allKeyed rcpts m) :=
  inferInstanceAs (Decidable (∀ rcpt, rcpt ∈ rcpts → (mapGet m rcpt).isSome = true))

/-- A target whose `Body` fails with a `PartialError` that lists a failed
recipient without giving its error. -/
def bodyFailsWithoutErrs : DeliveryTarget := fun hist =>
  match hist.getLast? with
  | some Call.Body => some (.partialError ["a@example.org"] [] [])
  | _ => none

/-- A target that rejects `b@example.org` for good and `a@example.org`
temporarily the first time it is offered, and accepts it afterwards. -/
def greylistOnce : DeliveryTarget := fun hist =>
  match hist.getLast? with
  | some (Call.AddRcpt rcpt) =>
    if rcpt = "b@example.org" then some sampleReject
    else if rcpt = "a@example.org" ∧ hist.count (Call.AddRcpt "a@example.org") = 1 then
      some (.other "try again later")
    else none
  | _ => none

/-- The sample message with a source address that is not a TCP address. -/
def sampleMetaUnix : QueueMetadata :=
  { sampleMeta ["a@example.org"] with
    MsgMeta := { sampleMsgMeta with SrcAddr := some (NetAddr.nonTCP "/run/maddy/lmtp.sock") } }

/-! ## The queue directory -/

/-- What a file of the queue directory holds, by what the queue can do with it:
the JSON encoding of the given metadata, header lines that
`textproto.ReadHeader` accepts or not, or anything else. -/
inductive FileData where
  | metaJSON (md : QueueMetadata)
  | headerText (wellFormed : Bool)
  | bytes
deriving DecidableEq, Repr

/-- An entry of the directory `q.location`, as `ioutil.ReadDir` lists it. -/
structure DirEntry where
  name : String
  isDir : Bool
  data : FileData
deriving DecidableEq, Repr

/-- The entry of the given name, if there is one. -/
def diskFind (disk : List DirEntry) (name : String) : Option DirEntry :=
  disk.find? (fun e => decide (e.name = name))

/-- The call `os.Remove` of an entry, taken to succeed when the entry exists
(it fails, and is logged, when there is none). -/
def diskRemove (disk : List DirEntry) (name : String) : List DirEntry :=
  disk.filter (fun e => decide (e.name ≠ name))

/-- The call `os.Create` followed by the writes: the file is created, or
truncated and rewritten. -/
def diskWrite : List DirEntry → String → FileData → List DirEntry
  | [], name, data => [{ name := name, isDir := false, data := data }]
  | e :: rest, name, data =>
    if e.name = name then { name := name, isDir := false, data := data } :: rest
    else e :: diskWrite rest name data

/-- The outcome of `os.Stat` or `os.Open` on a name. -/
inductive StatResult where
  | found
  | notExist
  | failed
deriving DecidableEq, Repr

/-- The call `os.Stat`; `ioError` tells the names on which the system call fails
with an error that is not `os.IsNotExist`. -/
def osStat (ioError : String → Bool) (disk : List DirEntry) (name : String) : StatResult :=
  if ioError name then StatResult.failed
  else if (diskFind disk name).isSome then StatResult.found
  else StatResult.notExist

/-- The call `strings.HasSuffix`. -/
def hasSuffix (s suffix : String) : Bool :=
  suffix.data.isSuffixOf s.data

/-- The slice `entry.Name()[:len(entry.Name())-5]` of line 462. -/
def trimMetaSuffix (name : String) : String :=
  ⟨name.data.take (name.data.length - 5)⟩

/-- The function `Queue.readMessageMeta` (lines 578-599): `none` is an error. -/
def readMessageMeta (ioError : String → Bool) (disk : List DirEntry) (id : String) :
    Option QueueMetadata :=
  if ioError (id ++ ".meta") then none
  else
    match diskFind disk (id ++ ".meta") with
    | some e =>
      if e.isDir then none
      else
        match e.data with
        | FileData.metaJSON md => some (decodeMeta md)
        | _ => none
    | none => none

/-- What `readDiskQueue` reads from its environment: the reading of
`time.Now()` inside `time.Until` (line 497), the one of line 498, and the names
on which a system call fails with an error other than "does not exist". -/
structure StartupEnv where
  untilNow : Int
  addNow : Int
  ioError : String → Bool

/-- The directory and the entries added to the wheel, in the order of the calls
of `q.wheel.Add`. -/
structure LoadState where
  disk : List DirEntry
  wheel : List (Int × String)
deriving DecidableEq, Repr

/-- The time at which `readDiskQueue` schedules a loaded message (lines 494-499). -/
def startupDeadline (q : Queue) (env : StartupEnv) (md : QueueMetadata) : Int :=
  let nextTryTime := md.LastAttempt + retryDelay q md.TriesCount
  if nextTryTime - env.untilNow < q.postInitDelay then env.addNow + q.postInitDelay
  else nextTryTime

/-- One iteration of the loop of `readDiskQueue` (lines 456-504). -/
def loadEntry (q : Queue) (env : StartupEnv) (s : LoadState) (entry : DirEntry) : LoadState :=
  if entry.isDir || !hasSuffix entry.name ".meta" then s
  else
    let id := trimMetaSuffix entry.name
    match readMessageMeta env.ioError s.disk id with
    | none => s
    | some md =>
      match osStat env.ioError s.disk (id ++ ".header") with
      | StatResult.notExist =>
        { s with disk := diskRemove (diskRemove s.disk (id ++ ".meta")) (id ++ ".body") }
      | StatResult.failed => s
      | StatResult.found =>
        match osStat env.ioError s.disk (id ++ ".body") with
        | StatResult.notExist =>
          { s with disk := diskRemove (diskRemove s.disk (id ++ ".meta")) (id ++ ".header") }
        | StatResult.failed => s
        | StatResult.found => { s with wheel := s.wheel ++ [(startupDeadline q env md, id)] }

/-- The function `Queue.readDiskQueue` (lines 447-511) on a directory listing. -/
def readDiskQueue (q : Queue) (env : StartupEnv) (disk : List DirEntry) : LoadState :=
  disk.foldl (loadEntry q env) { disk := disk, wheel := [] }

/-! ## `Queue.openMessage` and the worker -/

/-- What `openMessage` returns: an error, the empty signal (nil metadata with a
nil error), or the message. -/
inductive OpenResult where
  | error
  | empty
  | message (md : QueueMetadata)
deriving DecidableEq, Repr

/-- The function `Queue.openMessage` (lines 614-647), with the directory as it
leaves it. -/
def openMessage (ioError : String → Bool) (disk : List DirEntry) (id : String) :
    OpenResult × List DirEntry :=
  match readMessageMeta ioError disk id with
  | none => (OpenResult.error, disk)
  | some md =>
    match osStat ioError disk (id ++ ".body") with
    | StatResult.notExist => (OpenResult.empty, diskRemove disk (id ++ ".meta"))
    | StatResult.failed => (OpenResult.empty, disk)
    | StatResult.found =>
      match osStat ioError disk (id ++ ".header") with
      | StatResult.notExist =>
        (OpenResult.empty, diskRemove (diskRemove disk (id ++ ".meta")) (id ++ ".body"))
      | StatResult.failed => (OpenResult.empty, disk)
      | StatResult.found =>
        match (diskFind disk (id ++ ".header")).map (fun e => e.data) with
        | some (FileData.headerText true) => (OpenResult.message md, disk)
        | _ => (OpenResult.empty, disk)

/-- What becomes of one dispatch in the loop of `Queue.worker` (lines 202-212):
the read error is logged and the loop goes on, or `tryDelivery` runs on the
message, or `tryDelivery` is called with a nil `meta`, whose first statement
(`meta.MsgMeta`, line 218) dereferences it. -/
inductive WorkerOutcome where
  | readFailed
  | nilDereference
  | attempted (r : Option AttemptResult)
deriving DecidableEq

/-- One dispatch of `Queue.worker`: `openMessage`, the test `err != nil`, then
`tryDelivery` on whatever metadata was returned. -/
def workerDispatch (D : Deps) (q : Queue) (env : AttemptEnv) (ioError : String → Bool)
    (disk : List DirEntry) (id : String) (hist : List Call) : WorkerOutcome × List DirEntry :=
  match openMessage ioError disk id with
  | (OpenResult.error, disk1) => (WorkerOutcome.readFailed, disk1)
  | (OpenResult.empty, disk1) => (WorkerOutcome.nilDereference, disk1)
  | (OpenResult.message md, disk1) => (WorkerOutcome.attempted (tryDelivery D q env md hist), disk1)

/-! ## `Queue.storeNewMessage` -/

/-- The steps of `storeNewMessage` that can fail. -/
inductive StoreStep where
  | createHeader
  | writeHeader
  | openBody
  | createBody
  | copyBody
  | createMeta
  | encodeMeta
deriving DecidableEq, Repr

/-- The function `Queue.storeNewMessage` (lines 513-555), given the step that
fails, if any: whether it returns without error, the directory as it leaves it,
and the caller's metadata after the call. -/
def storeNewMessage (failAt : Option StoreStep) (disk : List DirEntry) (md : QueueMetadata) :
    Bool × List DirEntry × QueueMetadata :=
  let id := md.MsgMeta.ID
  if failAt = some StoreStep.createHeader then (false, disk, md)
  else
    let disk1 := diskWrite disk (id ++ ".header") (FileData.headerText true)
    if failAt = some StoreStep.writeHeader then (false, diskRemove disk1 (id ++ ".header"), md)
    else if failAt = some StoreStep.openBody then (false, diskRemove disk1 (id ++ ".header"), md)
    else if failAt = some StoreStep.createBody then (false, disk1, md)
    else
      let disk2 := diskWrite disk1 (id ++ ".body") FileData.bytes
      if failAt = some StoreStep.copyBody then
        (false, diskRemove (diskRemove disk2 (id ++ ".body")) (id ++ ".header"), md)
      else if failAt = some StoreStep.createMeta then
        (false, diskRemove (diskRemove disk2 (id ++ ".body")) (id ++ ".header"),
          (updateMetadataOnDisk false md).1)
      else
        let upd := updateMetadataOnDisk true md
        if failAt = some StoreStep.encodeMeta then
          (false,
            diskRemove (diskRemove (diskWrite disk2 (id ++ ".meta") FileData.bytes)
              (id ++ ".body")) (id ++ ".header"),
            upd.1)
        else
          (true,
            diskWrite disk2 (id ++ ".meta")
              (match upd.2 with
               | some metaCopy => FileData.metaJSON metaCopy
               | none => FileData.bytes),
            upd.1)

/-! ## Sample directories -/

/-- A plain file. -/
def sampleFile (name : String) (data : FileData) : DirEntry :=
  { name := name, isDir := false, data := data }

/-- An environment of `readDiskQueue` without I/O errors, at time 5000. -/
def sampleStartup : StartupEnv :=
  { untilNow := 5000, addNow := 5000, ioError := fun _ => false }

/-! ## What `readDiskQueue` should do with one message id -/

/-- The three file names of a message id. -/
def filesOf (id : String) : List String :=
  [id ++ ".meta", id ++ ".header", id ++ ".body"]

/-- Whether the loop of `readDiskQueue` takes the entry for a metadata file. -/
def isMetaFile (e : DirEntry) : Bool :=
  !e.isDir && hasSuffix e.name ".meta"

/-- What is to be done with a message id, given the directory. -/
inductive Verdict where
  | skip
  | dropMetaBody
  | dropMetaHeader
  | load (md : QueueMetadata)
deriving DecidableEq, Repr

/-- The decision for a message id: skip it when the metadata cannot be read or a
stat fails otherwise than by absence, drop the fragment when the header or the
body is absent, load it when all three files are there. -/
def verdict (ioError : String → Bool) (disk : List DirEntry) (id : String) : Verdict :=
  match readMessageMeta ioError disk id with
  | none => Verdict.skip
  | some md =>
    match osStat ioError disk (id ++ ".header") with
    | StatResult.notExist => Verdict.dropMetaBody
    | StatResult.failed => Verdict.skip
    | StatResult.found =>
      match osStat ioError disk (id ++ ".body") with
      | StatResult.notExist => Verdict.dropMetaHeader
      | StatResult.failed => Verdict.skip
      | StatResult.found => Verdict.load md

/-- The state after a decision is carried out. -/
def applyVerdict (q : Queue) (env : StartupEnv) (s : LoadState) (id : String) :
    Verdict → LoadState
  | Verdict.skip => s
  | Verdict.dropMetaBody =>
    { s with disk := diskRemove (diskRemove s.disk (id ++ ".meta")) (id ++ ".body") }
  | Verdict.dropMetaHeader =>
    { s with disk := diskRemove (diskRemove s.disk (id ++ ".meta")) (id ++ ".header") }
  | Verdict.load md => { s with wheel := s.wheel ++ [(startupDeadline q env md, id)] }

/-- Sample metadata of a stored message that was never tried. -/
def sampleStored (id : String) : QueueMetadata :=
  { sampleMeta ["a@example.org"] with MsgMeta := { sampleMsgMeta with ID := id } }

/-- A directory with the triple of `m1`, whose metadata does not parse, the
triple of `m2`, stored at time 1001 and never tried, and the triple of `m3`,
tried 30 times, the last time at 1001. -/
def sampleDir : List DirEntry :=
  [sampleFile "m1.body" FileData.bytes,
   sampleFile "m1.header" (FileData.headerText true),
   sampleFile "m1.meta" FileData.bytes,
   sampleFile "m2.body" FileData.bytes,
   sampleFile "m2.header" (FileData.headerText true),
   sampleFile "m2.meta" (FileData.metaJSON (sampleStored "m2")),
   sampleFile "m3.body" FileData.bytes,
   sampleFile "m3.header" (FileData.headerText true),
   sampleFile "m3.meta" (FileData.metaJSON { sampleStored "m3" with TriesCount := 30 })]

/-- A directory with the metadata and the body of `m4`, without its header. -/
def sampleDirNoHeader : List DirEntry :=
  [sampleFile "m4.body" FileData.bytes,
   sampleFile "m4.meta" (FileData.metaJSON (sampleStored "m4"))]

/-- An environment of `readDiskQueue` in which `os.Stat` of `m4.header` fails
with an error that is not `os.IsNotExist`. -/
def sampleStartupStatError : StartupEnv :=
  { untilNow := 5000, addNow := 5000, ioError := fun name => decide (name = "m4.header") }

/-- A directory with a triple tried once at time 1001, a fragment without
header, a fragment without body, an orphan body and a foreign file. -/
def sampleDirFragments : List DirEntry :=
  [sampleFile "README" FileData.bytes,
   sampleFile "m3.body" FileData.bytes,
   sampleFile "m3.header" (FileData.headerText true),
   sampleFile "m3.meta" (FileData.metaJSON { sampleStored "m3" with TriesCount := 1 }),
   sampleFile "m4.body" FileData.bytes,
   sampleFile "m4.meta" (FileData.metaJSON (sampleStored "m4")),
   sampleFile "m5.header" (FileData.headerText true),
   sampleFile "m5.meta" (FileData.metaJSON (sampleStored "m5")),
   sampleFile "m6.body" FileData.bytes]

/-- The value `time.Duration(math.Pow(16, float64(k)))` for `16 ^ k` of at
least `2 ^ 53`: a power of two is exact in float64, and the conversion of one
that is out of the range of int64 gives the least int64 (on amd64). -/
def roundedPowOfSixteen (k : Int) : Int :=
  if 4 * k < 63 then 16 ^ k.toNat else -(2 ^ 63)

/-- The sample queue with the scale 16 and a target that defers every recipient. -/
def sampleQueueSixteen : Queue :=
  { sampleQueue greylisting with retryTimeScale := 16, roundedPow := roundedPowOfSixteen }

/-! # Theorems -/

/-! ## Lemmas on maps -/

theorem mapGet_mapSet {V : Type} (m : List (String × V)) (k : String) (v : V) (k' : String) :
    mapGet (mapSet m k v) k' = if k = k' then some v else mapGet m k' := by
  induction m with
  | nil => simp [mapSet, mapGet]
  | cons p m ih =>
    obtain ⟨a, b⟩ := p
    by_cases hak : a = k
    · subst hak
      by_cases hk : a = k' <;> simp [mapSet, mapGet, hk]
    · by_cases hk : a = k'
      · subst hk
        have : ¬ k = a := fun h => hak h.symm
        simp [mapSet, mapGet, hak, this]
      · simp [mapSet, mapGet, hak, hk, ih]

theorem mapGet_mapSetAll {V : Type} (rcpts : List String) (m : List (String × V)) (v : V)
    (k : String) :
    mapGet (mapSetAll m rcpts v) k = if k ∈ rcpts then some v else mapGet m k := by
  induction rcpts generalizing m with
  | nil => simp [mapSetAll]
  | cons r rs ih =>
    have h := ih (mapSet m r v)
    simp only [mapSetAll, List.foldl_cons] at h ⊢
    rw [h, mapGet_mapSet]
    by_cases hk : k ∈ rs
    · simp [hk]
    · by_cases hr : r = k
      · subst hr; simp
      · have : ¬ k = r := fun h => hr h.symm
        simp [hk, hr, this]

theorem mapGet_mapMerge {V W : Type} (f : V → W) (dst : List (String × W))
    (src : List (String × V)) (k : String) :
    mapGet (mapMerge f dst src) k =
      match mapGet src k with
      | some v => some (f v)
      | none => mapGet dst k := by
  induction src with
  | nil => simp [mapMerge, mapGet]
  | cons p src ih =>
    obtain ⟨a, b⟩ := p
    simp only [mapMerge, List.foldr_cons] at ih ⊢
    rw [mapGet_mapSet]
    by_cases hak : a = k
    · simp [mapGet, hak]
    · simp only [mapGet, hak, if_false]
      exact ih

/-! ## The recipient stage -/

theorem addRcpts_cons_nil (D : Deps) (tgt : DeliveryTarget) (r : String) (rs : List String)
    (s : DeliverState) (h : tgt (s.hist ++ [Call.AddRcpt r]) = none) :
    addRcpts D tgt (r :: rs) s =
      addRcpts D tgt rs
        { hist := s.hist ++ [Call.AddRcpt r], perr := s.perr,
          acceptedRcpts := s.acceptedRcpts ++ [r] } := by
  simp [addRcpts, h]

theorem addRcpts_cons_temporary (D : Deps) (tgt : DeliveryTarget) (r : String) (rs : List String)
    (s : DeliverState) (err : GoError) (h : tgt (s.hist ++ [Call.AddRcpt r]) = some err)
    (ht : D.IsTemporaryErr err = true) :
    addRcpts D tgt (r :: rs) s =
      addRcpts D tgt rs
        { hist := s.hist ++ [Call.AddRcpt r],
          perr := { Failed := s.perr.Failed, TemporaryFailed := s.perr.TemporaryFailed ++ [r],
                    Errs := mapSet s.perr.Errs r err },
          acceptedRcpts := s.acceptedRcpts } := by
  simp [addRcpts, h, ht]

theorem addRcpts_cons_permanent (D : Deps) (tgt : DeliveryTarget) (r : String) (rs : List String)
    (s : DeliverState) (err : GoError) (h : tgt (s.hist ++ [Call.AddRcpt r]) = some err)
    (ht : D.IsTemporaryErr err = false) :
    addRcpts D tgt (r :: rs) s =
      addRcpts D tgt rs
        { hist := s.hist ++ [Call.AddRcpt r],
          perr := { Failed := s.perr.Failed ++ [r], TemporaryFailed := s.perr.TemporaryFailed,
                    Errs := mapSet s.perr.Errs r err },
          acceptedRcpts := s.acceptedRcpts } := by
  simp [addRcpts, h, ht]

theorem addRcpts_spec (D : Deps) (tgt : DeliveryTarget) (rcpts : List String) (s : DeliverState) :
    (addRcpts D tgt rcpts s).hist = s.hist ++ rcpts.map Call.AddRcpt ∧
    (addRcpts D tgt rcpts s).acceptedRcpts =
      s.acceptedRcpts ++ answeredNil (offered tgt s.hist rcpts) ∧
    (addRcpts D tgt rcpts s).perr.TemporaryFailed =
      s.perr.TemporaryFailed ++ answeredErr D true (offered tgt s.hist rcpts) ∧
    (addRcpts D tgt rcpts s).perr.Failed =
      s.perr.Failed ++ answeredErr D false (offered tgt s.hist rcpts) ∧
    ∀ rcpt, mapGet (addRcpts D tgt rcpts s).perr.Errs rcpt =
      match lastErr (offered tgt s.hist rcpts) rcpt with
      | some e => some e
      | none => mapGet s.perr.Errs rcpt := by
  induction rcpts generalizing s with
  | nil => simp [addRcpts, offered, answeredNil, answeredErr, lastErr]
  | cons r rs ih =>
    cases hans : tgt (s.hist ++ [Call.AddRcpt r]) with
    | none =>
      rw [addRcpts_cons_nil D tgt r rs s hans]
      obtain ⟨h1, h2, h3, h4, h5⟩ :=
        ih ⟨s.hist ++ [Call.AddRcpt r], s.perr, s.acceptedRcpts ++ [r]⟩
      simp only [offered, hans]
      refine ⟨?_, ?_, ?_, ?_, ?_⟩
      · rw [h1]; simp
      · rw [h2]; simp [answeredNil]
      · rw [h3]; simp [answeredErr]
      · rw [h4]; simp [answeredErr]
      · intro rcpt
        rw [h5 rcpt]
        simp only [lastErr]
        cases lastErr (offered tgt (s.hist ++ [Call.AddRcpt r]) rs) rcpt with
        | none => by_cases hr : r = rcpt <;> simp [hr]
        | some e => simp
    | some err =>
      cases htemp : D.IsTemporaryErr err with
      | true =>
        rw [addRcpts_cons_temporary D tgt r rs s err hans htemp]
        obtain ⟨h1, h2, h3, h4, h5⟩ :=
          ih ⟨s.hist ++ [Call.AddRcpt r],
            ⟨s.perr.Failed, s.perr.TemporaryFailed ++ [r], mapSet s.perr.Errs r err⟩,
            s.acceptedRcpts⟩
        simp only [offered, hans]
        refine ⟨?_, ?_, ?_, ?_, ?_⟩
        · rw [h1]; simp
        · rw [h2]; simp [answeredNil]
        · rw [h3]; simp [answeredErr, htemp]
        · rw [h4]; simp [answeredErr, htemp]
        · intro rcpt
          rw [h5 rcpt]
          simp only [lastErr]
          cases lastErr (offered tgt (s.hist ++ [Call.AddRcpt r]) rs) rcpt with
          | none => by_cases hr : r = rcpt <;> simp [hr, mapGet_mapSet]
          | some e => simp
      | false =>
        rw [addRcpts_cons_permanent D tgt r rs s err hans htemp]
        obtain ⟨h1, h2, h3, h4, h5⟩ :=
          ih ⟨s.hist ++ [Call.AddRcpt r],
            ⟨s.perr.Failed ++ [r], s.perr.TemporaryFailed, mapSet s.perr.Errs r err⟩,
            s.acceptedRcpts⟩
        simp only [offered, hans]
        refine ⟨?_, ?_, ?_, ?_, ?_⟩
        · rw [h1]; simp
        · rw [h2]; simp [answeredNil]
        · rw [h3]; simp [answeredErr, htemp]
        · rw [h4]; simp [answeredErr, htemp]
        · intro rcpt
          rw [h5 rcpt]
          simp only [lastErr]
          cases lastErr (offered tgt (s.hist ++ [Call.AddRcpt r]) rs) rcpt with
          | none => by_cases hr : r = rcpt <;> simp [hr, mapGet_mapSet]
          | some e => simp

theorem mem_answeredErr_cons (D : Deps) (b : Bool) (r : String) (a : Option GoError)
    (rest : List (String × Option GoError)) (rcpt : String) :
    rcpt ∈ answeredErr D b ((r, a) :: rest) ↔
      (rcpt = r ∧ ∃ e, a = some e ∧ D.IsTemporaryErr e = b) ∨ rcpt ∈ answeredErr D b rest := by
  cases a with
  | none => simp [answeredErr]
  | some e =>
    by_cases hb : D.IsTemporaryErr e = b
    · simp [answeredErr, hb, List.filter_cons]
    · simp [answeredErr, hb, List.filter_cons]

theorem lastErr_isSome (D : Deps) (answers : List (String × Option GoError)) (rcpt : String) :
    (lastErr answers rcpt).isSome ↔
      rcpt ∈ answeredErr D true answers ∨ rcpt ∈ answeredErr D false answers := by
  induction answers with
  | nil => simp [lastErr, answeredErr]
  | cons p rest ih =>
    obtain ⟨r, a⟩ := p
    rw [mem_answeredErr_cons D true, mem_answeredErr_cons D false]
    simp only [lastErr]
    cases hl : lastErr rest rcpt with
    | some e =>
      rw [hl] at ih
      have h := ih.mp (by simp)
      simp only [Option.isSome_some, true_iff]
      rcases h with h | h
      · exact Or.inl (Or.inr h)
      · exact Or.inr (Or.inr h)
    | none =>
      rw [hl] at ih
      have hno : ¬ (rcpt ∈ answeredErr D true rest ∨ rcpt ∈ answeredErr D false rest) := by
        intro h
        have := ih.mpr h
        simp at this
      by_cases hr : r = rcpt
      · cases a with
        | none =>
          simp only [hr, if_true]
          constructor
          · intro h; simp at h
          · rintro ((⟨_, e, he, _⟩ | h) | (⟨_, e, he, _⟩ | h))
            · cases he
            · exact absurd (Or.inl h) hno
            · cases he
            · exact absurd (Or.inr h) hno
        | some e =>
          simp only [hr, if_true, Option.isSome_some, true_iff]
          cases hb : D.IsTemporaryErr e with
          | true => exact Or.inl (Or.inl ⟨trivial, e, rfl, hb⟩)
          | false => exact Or.inr (Or.inl ⟨trivial, e, rfl, hb⟩)
      · simp only [hr, if_false]
        constructor
        · intro h; simp at h
        · rintro ((⟨h, _⟩ | h) | (⟨h, _⟩ | h))
          · exact absurd h.symm hr
          · exact absurd (Or.inl h) hno
          · exact absurd h.symm hr
          · exact absurd (Or.inr h) hno

/-! ## Claims on `deliver` -/

theorem deliver_when_start_fails (D : Deps) (q : Queue) (md : QueueMetadata) (hist : List Call)
    (tgt : DeliveryTarget) (e : GoError)
    (htgt : deliveryTarget q md = some tgt)
    (hstart : tgt (hist ++ [Call.Start md.From]) = some e) :
    ∃ perr, deliver D q md hist = some (perr, hist ++ [Call.Start md.From]) ∧
      perr.Failed = md.To ∧ perr.TemporaryFailed = [] ∧
      ∀ rcpt, mapGet perr.Errs rcpt = if rcpt ∈ md.To then some e else none := by
  refine ⟨{ Failed := md.To, TemporaryFailed := [], Errs := mapSetAll [] md.To e }, ?_, rfl, rfl, ?_⟩
  · simp [deliver, htgt, deliverTo, hstart]
  · intro rcpt
    rw [mapGet_mapSetAll]
    simp [mapGet]

/-- C3: when `Start` of the downstream target returns an error `e`, `deliver`
returns a `PartialError` whose `Failed` is `meta.To` in the same order, whose
`TemporaryFailed` is empty and whose `Errs` maps exactly the recipients of
`meta.To` to `e`; the only call made on the downstream is `Start`. -/
theorem deliver_start_error (D : Deps) (q : Queue) (md : QueueMetadata) (hist : List Call)
    (tgt : DeliveryTarget) (e : GoError)
    (htgt : deliveryTarget q md = some tgt)
    (hstart : tgt (hist ++ [Call.Start md.From]) = some e) :
    ∃ perr, deliver D q md hist = some (perr, hist ++ [Call.Start md.From]) ∧
      perr.Failed = md.To ∧ perr.TemporaryFailed = [] ∧
      ∀ rcpt, mapGet perr.Errs rcpt = if rcpt ∈ md.To then some e else none := by
  refine ⟨{ Failed := md.To, TemporaryFailed := [], Errs := mapSetAll [] md.To e }, ?_, rfl, rfl, ?_⟩
  · simp [deliver, htgt, deliverTo, hstart]
  · intro rcpt
    rw [mapGet_mapSetAll]
    simp [mapGet]

theorem deliver_start_error_witness :
    ∃ perr, deliver sampleDeps (sampleQueue startFails)
        (sampleMeta ["a@example.org", "b@example.org"]) [] =
        some (perr, [] ++ [Call.Start (sampleMeta ["a@example.org", "b@example.org"]).From]) ∧
      perr.Failed = (sampleMeta ["a@example.org", "b@example.org"]).To ∧
      perr.TemporaryFailed = [] ∧
      ∀ rcpt, mapGet perr.Errs rcpt =
        if rcpt ∈ (sampleMeta ["a@example.org", "b@example.org"]).To then some sampleReject
        else none :=
  deliver_start_error sampleDeps (sampleQueue startFails)
    (sampleMeta ["a@example.org", "b@example.org"]) [] startFails sampleReject rfl rfl

/-- C4: when `Start` succeeds, `deliver` offers each recipient of `meta.To` to
`AddRcpt` once, in order, and classifies it by the answer alone: accepted on
`nil`, temporarily failed on an error that `IsTemporaryErr` holds of, failed on
any other error. When `Body` and `Commit` then succeed (or nobody was accepted),
the returned `TemporaryFailed` and `Failed` are the recipients so answered, in
the order of `meta.To`, `Errs` holds for each recipient its (last) error answer,
and the keys of `Errs` are exactly the recipients of the two lists. -/
theorem deliver_addRcpt_classification (D : Deps) (q : Queue) (md : QueueMetadata)
    (hist : List Call) (tgt : DeliveryTarget)
    (htgt : deliveryTarget q md = some tgt)
    (hstart : tgt (hist ++ [Call.Start md.From]) = none)
    (hbody : answeredNil (offered tgt (hist ++ [Call.Start md.From]) md.To) ≠ [] →
      tgt (hist ++ [Call.Start md.From] ++ md.To.map Call.AddRcpt ++ [Call.Body]) = none)
    (hcommit : answeredNil (offered tgt (hist ++ [Call.Start md.From]) md.To) ≠ [] →
      tgt (hist ++ [Call.Start md.From] ++ md.To.map Call.AddRcpt ++
        [Call.Body, Call.Commit]) = none) :
    ∃ perr, deliver D q md hist =
        some (perr, hist ++ [Call.Start md.From] ++ md.To.map Call.AddRcpt ++
          (if answeredNil (offered tgt (hist ++ [Call.Start md.From]) md.To) = [] then [Call.Abort]
           else [Call.Body, Call.Commit])) ∧
      (addRcpts D tgt md.To ⟨hist ++ [Call.Start md.From], ⟨[], [], []⟩, []⟩).acceptedRcpts =
        answeredNil (offered tgt (hist ++ [Call.Start md.From]) md.To) ∧
      perr.TemporaryFailed = answeredErr D true (offered tgt (hist ++ [Call.Start md.From]) md.To) ∧
      perr.Failed = answeredErr D false (offered tgt (hist ++ [Call.Start md.From]) md.To) ∧
      (∀ rcpt, mapGet perr.Errs rcpt =
        lastErr (offered tgt (hist ++ [Call.Start md.From]) md.To) rcpt) ∧
      (∀ rcpt, (mapGet perr.Errs rcpt).isSome ↔
        rcpt ∈ perr.TemporaryFailed ∨ rcpt ∈ perr.Failed) := by
  obtain ⟨h1, h2, h3, h4, h5⟩ :=
    addRcpts_spec D tgt md.To ⟨hist ++ [Call.Start md.From], ⟨[], [], []⟩, []⟩
  simp only [List.nil_append] at h1 h2 h3 h4
  have h5' : ∀ rcpt,
      mapGet (addRcpts D tgt md.To ⟨hist ++ [Call.Start md.From], ⟨[], [], []⟩, []⟩).perr.Errs rcpt =
        lastErr (offered tgt (hist ++ [Call.Start md.From]) md.To) rcpt := by
    intro rcpt
    rw [h5 rcpt]
    cases lastErr (offered tgt (hist ++ [Call.Start md.From]) md.To) rcpt <;> simp [mapGet]
  refine ⟨(addRcpts D tgt md.To ⟨hist ++ [Call.Start md.From], ⟨[], [], []⟩, []⟩).perr,
    ?_, h2, h3, h4, h5', ?_⟩
  · by_cases hacc : answeredNil (offered tgt (hist ++ [Call.Start md.From]) md.To) = []
    · simp [deliver, htgt, deliverTo, hstart, h1, h2, hacc]
    · have hb : tgt (hist ++ Call.Start md.From :: (md.To.map Call.AddRcpt ++ [Call.Body])) = none := by
        simpa using hbody hacc
      have hc : tgt (hist ++ Call.Start md.From ::
          (md.To.map Call.AddRcpt ++ [Call.Body, Call.Commit])) = none := by
        simpa using hcommit hacc
      simp [deliver, htgt, deliverTo, hstart, h1, h2, hacc, hb, hc]
  · intro rcpt
    rw [h5' rcpt, h3, h4]
    exact lastErr_isSome D _ rcpt

theorem deliver_addRcpt_classification_witness :
    ∃ perr, deliver sampleDeps (sampleQueue rejectTwo)
        (sampleMeta ["a@example.org", "b@example.org", "c@example.org"]) [] =
        some (perr, [Call.Start "sender@example.org", Call.AddRcpt "a@example.org",
          Call.AddRcpt "b@example.org", Call.AddRcpt "c@example.org", Call.Body, Call.Commit]) ∧
      perr.TemporaryFailed = ["b@example.org"] ∧ perr.Failed = ["a@example.org"] := by
  obtain ⟨perr, h1, _, h3, h4, _, _⟩ :=
    deliver_addRcpt_classification sampleDeps (sampleQueue rejectTwo)
      (sampleMeta ["a@example.org", "b@example.org", "c@example.org"]) [] rejectTwo rfl rfl
      (fun _ => rfl) (fun _ => rfl)
  exact ⟨perr, h1, h3, h4⟩

/-- C5, the code at the failing input: `a@example.org` is rejected at `AddRcpt`,
`b@example.org` is accepted, `Body` fails with a plain error. Every accepted
recipient is then in `Failed`, yet `deliver` goes on to `Commit` and never calls
`Abort`: the test `len(TemporaryFailed)+len(Failed) == len(acceptedRcpts)`
counts the recipient rejected at `AddRcpt` too (2 against 1). -/
theorem deliver_commit_after_failed_body :
    deliver sampleDeps (sampleQueue rejectOneFailBody)
        (sampleMeta ["a@example.org", "b@example.org"]) [] =
      some
        ({ Failed := ["a@example.org", "b@example.org"], TemporaryFailed := [],
           Errs := [("a@example.org", sampleReject),
                    ("b@example.org", .other "connection lost")] },
         [Call.Start "sender@example.org", Call.AddRcpt "a@example.org",
          Call.AddRcpt "b@example.org", Call.Body, Call.Commit]) := by
  decide

theorem expandToPartialErr_partialError (D : Deps) (acceptedRcpts : List String)
    (perr : PartialError) (failed temporaryFailed : List String)
    (errs : List (String × GoError)) :
    (expandToPartialErr D acceptedRcpts perr (.partialError failed temporaryFailed errs)).Failed =
      perr.Failed ++ failed ∧
    (expandToPartialErr D acceptedRcpts perr
      (.partialError failed temporaryFailed errs)).TemporaryFailed =
      perr.TemporaryFailed ++ temporaryFailed ∧
    ∀ rcpt,
      mapGet (expandToPartialErr D acceptedRcpts perr
        (.partialError failed temporaryFailed errs)).Errs rcpt =
        match mapGet errs rcpt with
        | some e => some e
        | none => mapGet perr.Errs rcpt := by
  refine ⟨rfl, rfl, ?_⟩
  intro rcpt
  simp only [expandToPartialErr]
  rw [mapGet_mapMerge]
  cases mapGet errs rcpt <;> simp

theorem expandToPartialErr_plain (D : Deps) (acceptedRcpts : List String)
    (perr : PartialError) (e : GoError)
    (hplain : ∀ failed temporaryFailed errs, e ≠ .partialError failed temporaryFailed errs) :
    (expandToPartialErr D acceptedRcpts perr e).TemporaryFailed =
      perr.TemporaryFailed ++ (if D.IsTemporaryErr e then acceptedRcpts else []) ∧
    (expandToPartialErr D acceptedRcpts perr e).Failed =
      perr.Failed ++ (if D.IsTemporaryErr e then [] else acceptedRcpts) ∧
    ∀ rcpt,
      mapGet (expandToPartialErr D acceptedRcpts perr e).Errs rcpt =
        if rcpt ∈ acceptedRcpts then some e else mapGet perr.Errs rcpt := by
  cases e with
  | partialError f t m => exact absurd rfl (hplain f t m)
  | smtp s =>
    cases ht : D.IsTemporaryErr (.smtp s) <;>
      simp [expandToPartialErr, ht, mapGet_mapSetAll]
  | other text =>
    cases ht : D.IsTemporaryErr (.other text) <;>
      simp [expandToPartialErr, ht, mapGet_mapSetAll]

theorem deliver_expands_answers (D : Deps) (q : Queue) (md : QueueMetadata) (hist : List Call)
    (tgt : DeliveryTarget) (s : DeliverState)
    (htgt : deliveryTarget q md = some tgt)
    (hstart : tgt (hist ++ [Call.Start md.From]) = none)
    (hs : s = addRcpts D tgt md.To ⟨hist ++ [Call.Start md.From], ⟨[], [], []⟩, []⟩)
    (hacc : s.acceptedRcpts ≠ []) :
    (∀ perr failed temporaryFailed errs,
      (expandToPartialErr D s.acceptedRcpts perr
          (.partialError failed temporaryFailed errs)).Failed = perr.Failed ++ failed ∧
      (expandToPartialErr D s.acceptedRcpts perr
          (.partialError failed temporaryFailed errs)).TemporaryFailed =
        perr.TemporaryFailed ++ temporaryFailed ∧
      ∀ rcpt,
        mapGet (expandToPartialErr D s.acceptedRcpts perr
          (.partialError failed temporaryFailed errs)).Errs rcpt =
          match mapGet errs rcpt with
          | some e => some e
          | none => mapGet perr.Errs rcpt) ∧
    (∀ perr e, (∀ failed temporaryFailed errs, e ≠ .partialError failed temporaryFailed errs) →
      (expandToPartialErr D s.acceptedRcpts perr e).TemporaryFailed =
        perr.TemporaryFailed ++ (if D.IsTemporaryErr e then s.acceptedRcpts else []) ∧
      (expandToPartialErr D s.acceptedRcpts perr e).Failed =
        perr.Failed ++ (if D.IsTemporaryErr e then [] else s.acceptedRcpts) ∧
      ∀ rcpt,
        mapGet (expandToPartialErr D s.acceptedRcpts perr e).Errs rcpt =
          if rcpt ∈ s.acceptedRcpts then some e else mapGet perr.Errs rcpt) ∧
    (∃ perr calls, deliver D q md hist = some (perr, s.hist ++ calls) ∧
      ((calls = [Call.Body, Call.Abort] ∧
          perr = expandAnswer D s.acceptedRcpts s.perr (tgt (s.hist ++ [Call.Body]))) ∨
       (calls = [Call.Body, Call.Commit] ∧
          perr = expandAnswer D s.acceptedRcpts
            (expandAnswer D s.acceptedRcpts s.perr (tgt (s.hist ++ [Call.Body])))
            (tgt (s.hist ++ [Call.Body, Call.Commit]))))) := by
  refine ⟨fun perr f t m => expandToPartialErr_partialError D _ perr f t m,
    fun perr e he => expandToPartialErr_plain D _ perr e he, ?_⟩
  have hlen : ¬ s.acceptedRcpts.length = 0 := by
    intro h
    exact hacc (List.length_eq_zero.mp h)
  subst hs
  simp only [deliver, htgt, Option.map_some', deliverTo, hstart, hlen, if_false]
  cases hb : tgt ((addRcpts D tgt md.To
      ⟨hist ++ [Call.Start md.From], ⟨[], [], []⟩, []⟩).hist ++ [Call.Body]) with
  | none =>
    simp only [List.append_assoc, List.singleton_append]
    cases hc : tgt ((addRcpts D tgt md.To
        ⟨hist ++ [Call.Start md.From], ⟨[], [], []⟩, []⟩).hist ++ [Call.Body, Call.Commit]) with
    | none => exact ⟨_, _, rfl, Or.inr ⟨rfl, by simp [expandAnswer]⟩⟩
    | some e2 => exact ⟨_, _, rfl, Or.inr ⟨rfl, by simp [expandAnswer]⟩⟩
  | some e1 =>
    simp only [List.append_assoc, List.singleton_append]
    split
    · exact ⟨_, _, rfl, Or.inl ⟨rfl, by simp [expandAnswer]⟩⟩
    · cases hc : tgt ((addRcpts D tgt md.To
          ⟨hist ++ [Call.Start md.From], ⟨[], [], []⟩, []⟩).hist ++ [Call.Body, Call.Commit]) with
      | none => exact ⟨_, _, rfl, Or.inr ⟨rfl, by simp [expandAnswer]⟩⟩
      | some e2 => exact ⟨_, _, rfl, Or.inr ⟨rfl, by simp [expandAnswer]⟩⟩

/-- C6: error expansion in `deliver`. Expanding a `PartialError` appends its
`Failed` and `TemporaryFailed` to those of the result and lets each entry of its
`Errs` overwrite the result's entry for that recipient; expanding any other
error `e` appends every accepted recipient to `TemporaryFailed` when
`IsTemporaryErr e` holds and to `Failed` when it does not, and maps every
accepted recipient to `e`. After the recipient stage `deliver` returns the
result of that stage with the error of `Body` expanded and then, unless it
aborted, the error of `Commit` expanded. -/
theorem deliver_error_expansion (D : Deps) (q : Queue) (md : QueueMetadata) (hist : List Call)
    (tgt : DeliveryTarget) (s : DeliverState)
    (htgt : deliveryTarget q md = some tgt)
    (hstart : tgt (hist ++ [Call.Start md.From]) = none)
    (hs : s = addRcpts D tgt md.To ⟨hist ++ [Call.Start md.From], ⟨[], [], []⟩, []⟩)
    (hacc : s.acceptedRcpts ≠ []) :
    (∀ perr failed temporaryFailed errs,
      (expandToPartialErr D s.acceptedRcpts perr
          (.partialError failed temporaryFailed errs)).Failed = perr.Failed ++ failed ∧
      (expandToPartialErr D s.acceptedRcpts perr
          (.partialError failed temporaryFailed errs)).TemporaryFailed =
        perr.TemporaryFailed ++ temporaryFailed ∧
      ∀ rcpt,
        mapGet (expandToPartialErr D s.acceptedRcpts perr
          (.partialError failed temporaryFailed errs)).Errs rcpt =
          match mapGet errs rcpt with
          | some e => some e
          | none => mapGet perr.Errs rcpt) ∧
    (∀ perr e, (∀ failed temporaryFailed errs, e ≠ .partialError failed temporaryFailed errs) →
      (expandToPartialErr D s.acceptedRcpts perr e).TemporaryFailed =
        perr.TemporaryFailed ++ (if D.IsTemporaryErr e then s.acceptedRcpts else []) ∧
      (expandToPartialErr D s.acceptedRcpts perr e).Failed =
        perr.Failed ++ (if D.IsTemporaryErr e then [] else s.acceptedRcpts) ∧
      ∀ rcpt,
        mapGet (expandToPartialErr D s.acceptedRcpts perr e).Errs rcpt =
          if rcpt ∈ s.acceptedRcpts then some e else mapGet perr.Errs rcpt) ∧
    (∃ perr calls, deliver D q md hist = some (perr, s.hist ++ calls) ∧
      ((calls = [Call.Body, Call.Abort] ∧
          perr = expandAnswer D s.acceptedRcpts s.perr (tgt (s.hist ++ [Call.Body]))) ∨
       (calls = [Call.Body, Call.Commit] ∧
          perr = expandAnswer D s.acceptedRcpts
            (expandAnswer D s.acceptedRcpts s.perr (tgt (s.hist ++ [Call.Body])))
            (tgt (s.hist ++ [Call.Body, Call.Commit]))))) := by
  refine ⟨fun perr f t m => expandToPartialErr_partialError D _ perr f t m,
    fun perr e he => expandToPartialErr_plain D _ perr e he, ?_⟩
  have hlen : ¬ s.acceptedRcpts.length = 0 := by
    intro h
    exact hacc (List.length_eq_zero.mp h)
  subst hs
  simp only [deliver, htgt, Option.map_some', deliverTo, hstart, hlen, if_false]
  cases hb : tgt ((addRcpts D tgt md.To
      ⟨hist ++ [Call.Start md.From], ⟨[], [], []⟩, []⟩).hist ++ [Call.Body]) with
  | none =>
    simp only [List.append_assoc, List.singleton_append]
    cases hc : tgt ((addRcpts D tgt md.To
        ⟨hist ++ [Call.Start md.From], ⟨[], [], []⟩, []⟩).hist ++ [Call.Body, Call.Commit]) with
    | none => exact ⟨_, _, rfl, Or.inr ⟨rfl, by simp [expandAnswer]⟩⟩
    | some e2 => exact ⟨_, _, rfl, Or.inr ⟨rfl, by simp [expandAnswer]⟩⟩
  | some e1 =>
    simp only [List.append_assoc, List.singleton_append]
    split
    · exact ⟨_, _, rfl, Or.inl ⟨rfl, by simp [expandAnswer]⟩⟩
    · cases hc : tgt ((addRcpts D tgt md.To
          ⟨hist ++ [Call.Start md.From], ⟨[], [], []⟩, []⟩).hist ++ [Call.Body, Call.Commit]) with
      | none => exact ⟨_, _, rfl, Or.inr ⟨rfl, by simp [expandAnswer]⟩⟩
      | some e2 => exact ⟨_, _, rfl, Or.inr ⟨rfl, by simp [expandAnswer]⟩⟩

theorem deliver_error_expansion_witness :
    ∃ perr calls,
      deliver sampleDeps (sampleQueue bodyFailsForTwo)
          (sampleMeta ["a@example.org", "b@example.org", "c@example.org"]) [] =
        some (perr,
          (addRcpts sampleDeps bodyFailsForTwo
            (sampleMeta ["a@example.org", "b@example.org", "c@example.org"]).To
            ⟨[] ++ [Call.Start "sender@example.org"], ⟨[], [], []⟩, []⟩).hist ++ calls) ∧
      ((calls = [Call.Body, Call.Abort] ∧
          perr = expandAnswer sampleDeps
            ["a@example.org", "b@example.org", "c@example.org"] ⟨[], [], []⟩
            (some (.partialError ["a@example.org"] ["b@example.org"]
              [("a@example.org", sampleReject), ("b@example.org", .other "try again later")]))) ∨
       (calls = [Call.Body, Call.Commit] ∧
          perr = expandAnswer sampleDeps ["a@example.org", "b@example.org", "c@example.org"]
            (expandAnswer sampleDeps
              ["a@example.org", "b@example.org", "c@example.org"] ⟨[], [], []⟩
              (some (.partialError ["a@example.org"] ["b@example.org"]
                [("a@example.org", sampleReject), ("b@example.org", .other "try again later")])))
            none)) :=
  (deliver_error_expansion sampleDeps (sampleQueue bodyFailsForTwo)
    (sampleMeta ["a@example.org", "b@example.org", "c@example.org"]) [] bodyFailsForTwo
    (addRcpts sampleDeps bodyFailsForTwo
      (sampleMeta ["a@example.org", "b@example.org", "c@example.org"]).To
      ⟨[] ++ [Call.Start "sender@example.org"], ⟨[], [], []⟩, []⟩)
    rfl rfl rfl (by decide)).2.2

/-! ## `tryDelivery` -/

theorem updateMetadataOnDisk_fst (createOk : Bool) (md : QueueMetadata) :
    (updateMetadataOnDisk createOk md).1 = md ∨
    (updateMetadataOnDisk createOk md).1 =
      { md with MsgMeta := { md.MsgMeta with SrcAddr := none } } := by
  unfold updateMetadataOnDisk
  cases createOk with
  | false => exact Or.inl rfl
  | true =>
    cases h : md.MsgMeta.SrcAddr with
    | none => simp [h]
    | some a => cases a <;> simp [h]

theorem updateMetadataOnDisk_same (createOk : Bool) (md : QueueMetadata) :
    (updateMetadataOnDisk createOk md).1.To = md.To ∧
    (updateMetadataOnDisk createOk md).1.FailedRcpts = md.FailedRcpts ∧
    (updateMetadataOnDisk createOk md).1.RcptErrs = md.RcptErrs ∧
    (updateMetadataOnDisk createOk md).1.TemporaryFailedRcpts = md.TemporaryFailedRcpts ∧
    (updateMetadataOnDisk createOk md).1.DSN = md.DSN ∧
    (updateMetadataOnDisk createOk md).1.MsgMeta.ID = md.MsgMeta.ID ∧
    (updateMetadataOnDisk createOk md).1.LastAttempt = md.LastAttempt ∧
    (updateMetadataOnDisk createOk md).1.TriesCount = md.TriesCount := by
  rcases updateMetadataOnDisk_fst createOk md with h | h <;>
    · rw [h]
      exact ⟨rfl, rfl, rfl, rfl, rfl, rfl, rfl, rfl⟩

theorem tryDelivery_terminal (D : Deps) (q : Queue) (env : AttemptEnv) (md : QueueMetadata)
    (hist hist1 : List Call) (perr : PartialError)
    (hdel : deliver D q md hist = some (perr, hist1))
    (hterm : md.TriesCount = q.maxTries ∨ perr.TemporaryFailed = []) :
    tryDelivery D q env md hist =
      some
        { md := { md with
            FailedRcpts := md.FailedRcpts ++ perr.Failed,
            RcptErrs := mapMerge (toSMTPError D) md.RcptErrs perr.Errs,
            To := perr.TemporaryFailed,
            LastAttempt := env.lastAttemptNow },
          hist := hist1,
          effects := (if md.DSN then [] else
            [Effect.emitDSN { md with
              FailedRcpts := md.FailedRcpts ++ perr.Failed,
              RcptErrs := mapMerge (toSMTPError D) md.RcptErrs perr.Errs,
              To := perr.TemporaryFailed,
              LastAttempt := env.lastAttemptNow }]) ++ [Effect.removeFromDisk md.MsgMeta.ID],
          written := none } := by
  have hterm' : md.TriesCount = q.maxTries ∨ perr.TemporaryFailed.length = 0 := by
    rcases hterm with h | h
    · exact Or.inl h
    · exact Or.inr (by simp [h])
  unfold tryDelivery
  simp only [hdel]
  rw [if_pos hterm']
  cases hd : md.DSN <;> simp [hd]

theorem tryDelivery_retry (D : Deps) (q : Queue) (env : AttemptEnv) (md : QueueMetadata)
    (hist hist1 : List Call) (perr : PartialError)
    (hdel : deliver D q md hist = some (perr, hist1))
    (htries : md.TriesCount ≠ q.maxTries) (htemp : perr.TemporaryFailed ≠ []) :
    ∃ md5 : QueueMetadata,
      md5 = { md with
          FailedRcpts := md.FailedRcpts ++ perr.Failed,
          RcptErrs := mapMerge (toSMTPError D) md.RcptErrs perr.Errs,
          To := perr.TemporaryFailed,
          LastAttempt := env.lastAttemptNow,
          TriesCount := md.TriesCount + 1 } ∧
      tryDelivery D q env md hist =
        some
          { md := (updateMetadataOnDisk env.metaCreateOk md5).1,
            hist := hist1,
            effects := [Effect.updateMetadataOnDisk md5,
              Effect.wheelAdd
                (env.scheduleNow +
                  retryDelay q (updateMetadataOnDisk env.metaCreateOk md5).1.TriesCount)
                (updateMetadataOnDisk env.metaCreateOk md5).1.MsgMeta.ID],
            written := (updateMetadataOnDisk env.metaCreateOk md5).2 } := by
  refine ⟨_, rfl, ?_⟩
  have hnot : ¬ (md.TriesCount = q.maxTries ∨ perr.TemporaryFailed.length = 0) := by
    rintro (h | h)
    · exact htries h
    · exact htemp (List.length_eq_zero.mp h)
  unfold tryDelivery
  simp only [hdel]
  rw [if_neg hnot]

theorem tryDelivery_fields (D : Deps) (q : Queue) (env : AttemptEnv) (md : QueueMetadata)
    (hist hist1 : List Call) (perr : PartialError)
    (hdel : deliver D q md hist = some (perr, hist1)) :
    ∃ r, tryDelivery D q env md hist = some r ∧
      r.hist = hist1 ∧
      r.md.To = perr.TemporaryFailed ∧
      r.md.FailedRcpts = md.FailedRcpts ++ perr.Failed ∧
      r.md.RcptErrs = mapMerge (toSMTPError D) md.RcptErrs perr.Errs ∧
      r.md.TemporaryFailedRcpts = md.TemporaryFailedRcpts ∧
      r.md.DSN = md.DSN ∧
      r.md.MsgMeta.ID = md.MsgMeta.ID ∧
      r.md.LastAttempt = env.lastAttemptNow := by
  by_cases hterm : md.TriesCount = q.maxTries ∨ perr.TemporaryFailed = []
  · exact ⟨_, tryDelivery_terminal D q env md hist hist1 perr hdel hterm,
      rfl, rfl, rfl, rfl, rfl, rfl, rfl, rfl⟩
  · have htries : md.TriesCount ≠ q.maxTries := fun h => hterm (Or.inl h)
    have htemp : perr.TemporaryFailed ≠ [] := fun h => hterm (Or.inr h)
    obtain ⟨md5, hmd5, htry⟩ := tryDelivery_retry D q env md hist hist1 perr hdel htries htemp
    obtain ⟨u1, u2, u3, u4, u5, u6, u7, _⟩ := updateMetadataOnDisk_same env.metaCreateOk md5
    subst hmd5
    exact ⟨_, htry, rfl, u1, u2, u3, u4, u5, u6, u7⟩

/-- C7: after every run of `tryDelivery`, `meta.To` is the `TemporaryFailed`
list that `deliver` returned for this attempt and `meta.FailedRcpts` is its
previous value followed by the attempt's `Failed` list; so every recipient that
was in `FailedRcpts` before the attempt is still in it. -/
theorem tryDelivery_bookkeeping (D : Deps) (q : Queue) (env : AttemptEnv) (md : QueueMetadata)
    (hist hist1 : List Call) (perr : PartialError)
    (hdel : deliver D q md hist = some (perr, hist1)) :
    ∃ r, tryDelivery D q env md hist = some r ∧
      r.md.To = perr.TemporaryFailed ∧
      r.md.FailedRcpts = md.FailedRcpts ++ perr.Failed ∧
      ∀ rcpt ∈ md.FailedRcpts, rcpt ∈ r.md.FailedRcpts := by
  obtain ⟨r, hr, _, hto, hfailed, _⟩ := tryDelivery_fields D q env md hist hist1 perr hdel
  refine ⟨r, hr, hto, hfailed, ?_⟩
  intro rcpt hmem
  rw [hfailed]
  exact List.mem_append_left _ hmem

theorem tryDelivery_bookkeeping_witness :
    ∃ r, tryDelivery sampleDeps (sampleQueue rejectTwo) sampleEnv
        { sampleMeta ["a@example.org", "b@example.org", "c@example.org"] with
          FailedRcpts := ["z@example.org"] } [] = some r ∧
      r.md.To = ["b@example.org"] ∧
      r.md.FailedRcpts = ["z@example.org"] ++ ["a@example.org"] ∧
      ∀ rcpt ∈ ["z@example.org"], rcpt ∈ r.md.FailedRcpts :=
  tryDelivery_bookkeeping sampleDeps (sampleQueue rejectTwo) sampleEnv
    { sampleMeta ["a@example.org", "b@example.org", "c@example.org"] with
      FailedRcpts := ["z@example.org"] } []
    [Call.Start "sender@example.org", Call.AddRcpt "a@example.org",
      Call.AddRcpt "b@example.org", Call.AddRcpt "c@example.org", Call.Body, Call.Commit]
    { Failed := ["a@example.org"], TemporaryFailed := ["b@example.org"],
      Errs := [("a@example.org", sampleReject), ("b@example.org", .other "try again later")] }
    (by decide)

/-- C8, the code at the failing input: the only recipient is rejected
temporarily, so the attempt's `TemporaryFailed` (and `meta.To` after the run) is
that recipient, but `meta.TemporaryFailedRcpts` is still empty: `tryDelivery`
never assigns the field. -/
theorem tryDelivery_leaves_temporaryFailedRcpts_empty :
    (tryDelivery sampleDeps (sampleQueue greylisting) sampleEnv
        (sampleMeta ["a@example.org"]) []).map
      (fun r => (r.md.To, r.md.TemporaryFailedRcpts, r.scheduled)) =
      some (["a@example.org"], [], true) := by
  decide

/-- C9: error coercion in `tryDelivery`. For a recipient whose error in the
attempt's `Errs` is an SMTP error, `meta.RcptErrs` holds that error itself; for
a recipient with any other error `e` it holds the SMTP error with message
`e.Error()` and code 451, enhanced code 4.0.0 when `IsTemporaryErr e`, code 554,
enhanced code 5.0.0 when not; for a recipient absent from `Errs` the entry of
`meta.RcptErrs` is unchanged. -/
theorem tryDelivery_rcptErrs (D : Deps) (q : Queue) (env : AttemptEnv) (md : QueueMetadata)
    (hist hist1 : List Call) (perr : PartialError)
    (hdel : deliver D q md hist = some (perr, hist1)) :
    ∃ r, tryDelivery D q env md hist = some r ∧
      (∀ rcpt e, mapGet perr.Errs rcpt = some (.smtp e) → mapGet r.md.RcptErrs rcpt = some e) ∧
      (∀ rcpt e, mapGet perr.Errs rcpt = some e → (∀ s, e ≠ .smtp s) →
        mapGet r.md.RcptErrs rcpt =
          some (if D.IsTemporaryErr e then
              { Code := 451, EnhancedCode := (4, 0, 0), Message := D.Error e }
            else
              { Code := 554, EnhancedCode := (5, 0, 0), Message := D.Error e })) ∧
      (∀ rcpt, mapGet perr.Errs rcpt = none →
        mapGet r.md.RcptErrs rcpt = mapGet md.RcptErrs rcpt) := by
  obtain ⟨r, hr, _, _, _, herrs, _⟩ := tryDelivery_fields D q env md hist hist1 perr hdel
  refine ⟨r, hr, ?_, ?_, ?_⟩
  · intro rcpt e he
    rw [herrs, mapGet_mapMerge, he]
    rfl
  · intro rcpt e he hplain
    rw [herrs, mapGet_mapMerge, he]
    cases e with
    | smtp s => exact absurd rfl (hplain s)
    | partialError f t m =>
      cases ht : D.IsTemporaryErr (.partialError f t m) <;> simp [toSMTPError, ht]
    | other text =>
      cases ht : D.IsTemporaryErr (.other text) <;> simp [toSMTPError, ht]
  · intro rcpt he
    rw [herrs, mapGet_mapMerge, he]

theorem tryDelivery_rcptErrs_witness :
    ∃ r, tryDelivery sampleDeps (sampleQueue rejectTwo) sampleEnv
        (sampleMeta ["a@example.org", "b@example.org", "c@example.org"]) [] = some r ∧
      mapGet r.md.RcptErrs "a@example.org" =
        some { Code := 550, EnhancedCode := (5, 1, 1), Message := "no such user" } ∧
      mapGet r.md.RcptErrs "b@example.org" =
        some { Code := 451, EnhancedCode := (4, 0, 0), Message := "try again later" } ∧
      mapGet r.md.RcptErrs "c@example.org" = none := by
  obtain ⟨r, hr, h1, h2, h3⟩ :=
    tryDelivery_rcptErrs sampleDeps (sampleQueue rejectTwo) sampleEnv
      (sampleMeta ["a@example.org", "b@example.org", "c@example.org"]) []
      [Call.Start "sender@example.org", Call.AddRcpt "a@example.org",
        Call.AddRcpt "b@example.org", Call.AddRcpt "c@example.org", Call.Body, Call.Commit]
      { Failed := ["a@example.org"], TemporaryFailed := ["b@example.org"],
        Errs := [("a@example.org", sampleReject), ("b@example.org", .other "try again later")] }
      (by decide)
  refine ⟨r, hr, h1 _ _ (by decide), ?_, ?_⟩
  · have h := h2 "b@example.org" (.other "try again later") (by decide) (by intro s; simp)
    rw [h]; decide
  · rw [h3 "c@example.org" (by decide)]; decide

theorem wrapInt64_of_range (x : Int) (hlo : -(2 ^ 63) ≤ x) (hhi : x < 2 ^ 63) :
    wrapInt64 x = x := by
  unfold wrapInt64
  rw [Int.emod_eq_of_lt (by omega) (by omega)]
  omega

theorem powDuration_exact (q : Queue) (k : Int) (hk : 0 ≤ k)
    (hexact : q.retryTimeScale ^ k.toNat < 2 ^ 53) :
    powDuration q k = (q.retryTimeScale : Int) ^ k.toNat := by
  unfold powDuration
  rw [if_pos hk, if_pos hexact]

theorem retryDelay_of_fits (q : Queue) (n : Int) (hn : 1 ≤ n)
    (hexact : q.retryTimeScale ^ (n - 1).toNat < 2 ^ 53)
    (hlo : -(2 ^ 63) ≤ q.initialRetryTime * (q.retryTimeScale : Int) ^ (n - 1).toNat)
    (hhi : q.initialRetryTime * (q.retryTimeScale : Int) ^ (n - 1).toNat < 2 ^ 63) :
    retryDelay q n = q.initialRetryTime * (q.retryTimeScale : Int) ^ (n - 1).toNat := by
  unfold retryDelay
  rw [powDuration_exact q (n - 1) (by omega) hexact, wrapInt64_of_range _ hlo hhi]

theorem retryDelay_small_scale (q : Queue) (hinit : q.initialRetryTime = 900000000000)
    (hscale : q.retryTimeScale ≤ 10) (n : Int) (h1 : 1 ≤ n) (h8 : n ≤ 8) :
    retryDelay q n = 900000000000 * (q.retryTimeScale : Int) ^ (n - 1).toNat ∧
    (900000000000 : Int) * (q.retryTimeScale : Int) ^ (n - 1).toNat < 2 ^ 63 ∧
    (q.retryTimeScale : Int) ^ (n - 1).toNat < 2 ^ 53 := by
  obtain ⟨k, hk⟩ : ∃ k : Nat, (n - 1).toNat = k := ⟨_, rfl⟩
  have hk7 : k ≤ 7 := by omega
  have hnat : q.retryTimeScale ^ k ≤ 10000000 :=
    calc q.retryTimeScale ^ k ≤ 10 ^ k := Nat.pow_le_pow_left hscale k
      _ ≤ 10 ^ 7 := Nat.pow_le_pow_right (by norm_num) hk7
      _ = 10000000 := by norm_num
  have hpow : (q.retryTimeScale : Int) ^ k ≤ 10000000 := by exact_mod_cast hnat
  have hpos : (0 : Int) ≤ (q.retryTimeScale : Int) ^ k := by positivity
  have hexact : q.retryTimeScale ^ (n - 1).toNat < 2 ^ 53 := by
    rw [hk]
    exact lt_of_le_of_lt hnat (by norm_num)
  unfold retryDelay
  rw [powDuration_exact q (n - 1) (by omega) hexact, hinit, hk]
  refine ⟨?_, ?_, ?_⟩
  · rw [wrapInt64_of_range _ (by norm_num; omega) (by norm_num; omega)]
  · norm_num; omega
  · norm_num; omega

/-- C10 as stated fails: with the defaults of 15 minutes and 8 tries and the
integer scale 16, the eighth try of a message is scheduled
`1784237441775828992` ns after `now`, whereas
`initial_retry_time * retry_time_scale ^ (8 - 1)` is `900000000000 * 16 ^ 7`,
which is not below `2 ^ 63`: the power `16 ^ 7` is exact, the int64 product
overflows. -/
theorem tryDelivery_retry_overflows_scale_16 :
    (tryDelivery sampleDeps sampleQueueSixteen sampleEnv
        { sampleMeta ["a@example.org"] with TriesCount := 7 } []).map
      (fun r => (r.md.TriesCount, r.effects.filter Effect.isWheelAdd)) =
      some (8, [Effect.wheelAdd (2001 + 1784237441775828992) "msg1"]) ∧
    (2001 + 1784237441775828992 : Int) ≠ 2001 + 900000000000 * 16 ^ (8 - 1) ∧
    (2 : Int) ^ 63 ≤ 900000000000 * 16 ^ (8 - 1) := by
  decide

/-- C10, amended: the retry schedule. A run of `tryDelivery` that is not
terminal increments `TriesCount` by exactly one and calls `wheel.Add` exactly
once, with the message id and the time `now + delay`, the delay being the int64
product `initialRetryTime * time.Duration(math.Pow(retryTimeScale, n - 1))` for
the incremented count `n`; whenever the power is below `2 ^ 53` and the product
fits in an int64, the delay is `initialRetryTime * retryTimeScale ^ (n - 1)`.
With the default `initialRetryTime` of 15 minutes, an integer scale of at most
10 (the default is 2) and `n` from 1 to 8 the power is exact, the product does
not overflow, the first delay is `initialRetryTime` and each later delay is
`retryTimeScale` times the previous one. -/
theorem tryDelivery_retry_schedule (D : Deps) (q : Queue) (env : AttemptEnv)
    (md : QueueMetadata) (hist hist1 : List Call) (perr : PartialError)
    (hdel : deliver D q md hist = some (perr, hist1))
    (htries : md.TriesCount ≠ q.maxTries) (htemp : perr.TemporaryFailed ≠ []) :
    ∃ r, tryDelivery D q env md hist = some r ∧
      r.md.TriesCount = md.TriesCount + 1 ∧
      r.effects.filter Effect.isWheelAdd =
        [Effect.wheelAdd (env.scheduleNow + retryDelay q (md.TriesCount + 1)) md.MsgMeta.ID] ∧
      (∀ n : Int, 1 ≤ n →
        q.retryTimeScale ^ (n - 1).toNat < 2 ^ 53 →
        -(2 ^ 63) ≤ q.initialRetryTime * (q.retryTimeScale : Int) ^ (n - 1).toNat →
        q.initialRetryTime * (q.retryTimeScale : Int) ^ (n - 1).toNat < 2 ^ 63 →
        retryDelay q n = q.initialRetryTime * (q.retryTimeScale : Int) ^ (n - 1).toNat) ∧
      (q.initialRetryTime = 900000000000 → q.retryTimeScale ≤ 10 →
        ∀ n : Int, 1 ≤ n → n ≤ 8 →
          retryDelay q n = q.initialRetryTime * (q.retryTimeScale : Int) ^ (n - 1).toNat ∧
          q.initialRetryTime * (q.retryTimeScale : Int) ^ (n - 1).toNat < 2 ^ 63 ∧
          (q.retryTimeScale : Int) ^ (n - 1).toNat < 2 ^ 53 ∧
          retryDelay q 1 = q.initialRetryTime ∧
          (n < 8 → retryDelay q (n + 1) = q.retryTimeScale * retryDelay q n)) := by
  obtain ⟨md5, hmd5, htry⟩ := tryDelivery_retry D q env md hist hist1 perr hdel htries htemp
  obtain ⟨_, _, _, _, _, uid, _, utries⟩ := updateMetadataOnDisk_same env.metaCreateOk md5
  subst hmd5
  refine ⟨_, htry, utries, ?_, ?_, ?_⟩
  · simp only [utries, uid, List.filter, Effect.isWheelAdd]
  · intro n hn hexact hlo hhi
    exact retryDelay_of_fits q n hn hexact hlo hhi
  · intro hinit hscale n h1 h8
    obtain ⟨d1, d2, d3⟩ := retryDelay_small_scale q hinit hscale n h1 h8
    refine ⟨by rw [d1, hinit], by rw [hinit]; exact d2, d3, ?_, ?_⟩
    · rw [(retryDelay_small_scale q hinit hscale 1 (by norm_num) (by norm_num)).1, hinit]
      norm_num
    · intro hlt
      rw [(retryDelay_small_scale q hinit hscale (n + 1) (by omega) (by omega)).1, d1]
      have hn : (n + 1 - 1).toNat = (n - 1).toNat + 1 := by omega
      rw [hn, pow_succ]
      ring

theorem tryDelivery_retry_schedule_witness :
    ∃ r, tryDelivery sampleDeps (sampleQueue greylisting) sampleEnv
        (sampleMeta ["a@example.org"]) [] = some r ∧
      r.md.TriesCount = 1 ∧
      r.effects.filter Effect.isWheelAdd = [Effect.wheelAdd (2001 + 900000000000) "msg1"] ∧
      retryDelay (sampleQueue greylisting) 8 = 900000000000 * 2 ^ 7 := by
  obtain ⟨r, hr, h1, h2, _, h4⟩ :=
    tryDelivery_retry_schedule sampleDeps (sampleQueue greylisting) sampleEnv
      (sampleMeta ["a@example.org"]) []
      [Call.Start "sender@example.org", Call.AddRcpt "a@example.org", Call.Abort]
      { Failed := [], TemporaryFailed := ["a@example.org"],
        Errs := [("a@example.org", .other "try again later")] }
      (by decide) (by decide) (by decide)
  refine ⟨r, hr, h1, ?_, ?_⟩
  · rw [h2]
    decide
  · exact (h4 rfl (by decide) 8 (by norm_num) (by norm_num)).1

/-! ## The code as it is: runs, DSN emission, overflow -/

theorem deliver_of_not_DSN (D : Deps) (q : Queue) (md : QueueMetadata) (hist : List Call)
    (hdsn : md.DSN = false) :
    deliver D q md hist = some (deliverTo D q.Target md hist) := by
  simp [deliver, deliveryTarget, hdsn]

theorem updateMetadataOnDisk_snd (md : QueueMetadata) :
    (updateMetadataOnDisk true md).2 = some md := by
  unfold updateMetadataOnDisk
  cases h : md.MsgMeta.SrcAddr with
  | none => simp [h]
  | some a => cases a <;> simp [h]

theorem attempts_head (D : Deps) (q : Queue) (env : AttemptEnv) (fuel : Nat)
    (md : QueueMetadata) (hist : List Call) (r : AttemptResult)
    (hr : tryDelivery D q env md hist = some r) :
    r ∈ attempts D q env (fuel + 1) md hist := by
  simp only [attempts, hr]
  split <;> simp

/-- The number of runs of `tryDelivery` on a message that is not a DSN, when
every run leaves a temporarily failed recipient and the metadata is written
back each time: `maxTries - TriesCount + 1`, that is `maxTries + 1` for a
message entered through `Start`. -/
theorem attempts_length (D : Deps) (q : Queue) (env : AttemptEnv)
    (hok : env.metaCreateOk = true) (fuel : Nat) :
    ∀ (md : QueueMetadata) (hist : List Call),
      md.DSN = false → md.TriesCount ≤ q.maxTries →
      (q.maxTries - md.TriesCount).toNat < fuel →
      (∀ r ∈ attempts D q env fuel md hist, r.md.To ≠ []) →
      (attempts D q env fuel md hist).length = (q.maxTries - md.TriesCount).toNat + 1 := by
  induction fuel with
  | zero => intro md hist _ _ h; omega
  | succ fuel ih =>
    intro md hist hdsn hle hfuel hall
    obtain ⟨perr, hist1, hdel⟩ : ∃ perr hist1, deliver D q md hist = some (perr, hist1) :=
      ⟨_, _, deliver_of_not_DSN D q md hist hdsn⟩
    by_cases htries : md.TriesCount = q.maxTries
    · have ht := tryDelivery_terminal D q env md hist hist1 perr hdel (Or.inl htries)
      simp only [attempts, ht, AttemptResult.scheduled, hdsn]
      simp [htries]
    · by_cases htemp : perr.TemporaryFailed = []
      · exfalso
        obtain ⟨r, hr, _, hto, _⟩ := tryDelivery_fields D q env md hist hist1 perr hdel
        exact hall r (attempts_head D q env fuel md hist r hr) (by rw [hto]; exact htemp)
      · obtain ⟨md5, hmd5, ht⟩ := tryDelivery_retry D q env md hist hist1 perr hdel htries htemp
        have hw := updateMetadataOnDisk_snd md5
        have hsched : (attempts D q env (fuel + 1) md hist) =
            { md := (updateMetadataOnDisk env.metaCreateOk md5).1,
              hist := hist1,
              effects := [Effect.updateMetadataOnDisk md5,
                Effect.wheelAdd
                  (env.scheduleNow +
                    retryDelay q (updateMetadataOnDisk env.metaCreateOk md5).1.TriesCount)
                  (updateMetadataOnDisk env.metaCreateOk md5).1.MsgMeta.ID],
              written := (updateMetadataOnDisk env.metaCreateOk md5).2 } ::
              attempts D q env fuel (decodeMeta md5) hist1 := by
          simp only [attempts, ht, AttemptResult.scheduled]
          simp [hok, hw]
        rw [hsched] at hall ⊢
        have hd5 : (decodeMeta md5).DSN = false := by rw [hmd5]; exact hdsn
        have ht5 : (decodeMeta md5).TriesCount = md.TriesCount + 1 := by rw [hmd5]; rfl
        have hlt : md.TriesCount < q.maxTries := lt_of_le_of_ne hle htries
        have hih := ih (decodeMeta md5) hist1 hd5 (by omega) (by omega)
          (fun r hr => hall r (List.mem_cons_of_mem _ hr))
        rw [List.length_cons, hih, ht5]
        omega

/-- In a terminal run `emitDSN` is called exactly when the message is not a
DSN, whatever `FailedRcpts` holds. -/
theorem tryDelivery_terminal_emitDSN (D : Deps) (q : Queue) (env : AttemptEnv)
    (md : QueueMetadata) (hist hist1 : List Call) (perr : PartialError)
    (hdel : deliver D q md hist = some (perr, hist1))
    (hterm : md.TriesCount = q.maxTries ∨ perr.TemporaryFailed = []) :
    ∃ r, tryDelivery D q env md hist = some r ∧
      (Effect.emitDSN r.md ∈ r.effects ↔ md.DSN = false) := by
  refine ⟨_, tryDelivery_terminal D q env md hist hist1 perr hdel hterm, ?_⟩
  cases hd : md.DSN <;> simp [hd]

/-! ## Where the code departs from the claims -/

/-- C1, the code at the failing input: a message that is not a DSN, on a queue
with a bounce dispatcher, whose only recipient is delivered at the first
attempt. The attempt is terminal and `FailedRcpts` is empty, yet `tryDelivery`
calls `emitDSN`, which goes on to build a DSN with no recipient entry. -/
theorem tryDelivery_emits_dsn_without_failure :
    ∃ r, tryDelivery sampleDeps (sampleQueue acceptAll) sampleEnv
        (sampleMeta ["a@example.org"]) [] = some r ∧
      r.md.DSN = false ∧ r.md.FailedRcpts = [] ∧ r.md.To = [] ∧
      r.effects = [Effect.emitDSN r.md, Effect.removeFromDisk "msg1"] ∧
      (emitDSN (sampleQueue acceptAll) r.md "dsn1").map (fun d => (d.To, d.rcptInfo)) =
        some ("sender@example.org", []) := by
  refine ⟨_, tryDelivery_terminal sampleDeps (sampleQueue acceptAll) sampleEnv
    (sampleMeta ["a@example.org"]) []
    [Call.Start "sender@example.org", Call.AddRcpt "a@example.org", Call.Body, Call.Commit]
    { Failed := [], TemporaryFailed := [], Errs := [] } (by decide) (Or.inr rfl),
    by decide, by decide, by decide, by decide, by decide⟩

/-- C2, the code at the failing input: `max_tries` is 1 and the downstream
rejects the only recipient temporarily at every attempt. The first run of
`tryDelivery` (attempt number 1, which is `max_tries`) is not terminal: it puts
the message back on the wheel, and a second run happens, which is the terminal
one. -/
theorem attempts_exceed_maxTries :
    (attempts sampleDeps (sampleQueueTries greylisting 1) sampleEnv 10
        (sampleMeta ["a@example.org"]) []).map
      (fun r => (r.md.TriesCount, r.md.To, r.scheduled)) =
      [(1, ["a@example.org"], true), (1, ["a@example.org"], false)] := by
  decide

/-! ## The protocol driven by `deliver` -/

/-- C19: `deliver` drives the downstream through a well-formed staged protocol
for every downstream behaviour. After a failed `Start` no further call is made.
After a successful `Start` every recipient of `meta.To` is offered to `AddRcpt`,
in order, before anything else; then either nobody was accepted and the only
further call is `Abort`, or somebody was accepted, `Body` is called once and is
followed by exactly one of `Abort` and `Commit`, which is the last call. -/
theorem deliver_protocol (D : Deps) (q : Queue) (md : QueueMetadata) (hist : List Call)
    (tgt : DeliveryTarget) (htgt : deliveryTarget q md = some tgt) :
    ∃ calls, (deliver D q md hist).map Prod.snd = some (hist ++ calls) ∧
      ((tgt (hist ++ [Call.Start md.From]) ≠ none ∧ calls = [Call.Start md.From]) ∨
       (tgt (hist ++ [Call.Start md.From]) = none ∧
        ∃ tail, calls = Call.Start md.From :: (md.To.map Call.AddRcpt ++ tail) ∧
          ((answeredNil (offered tgt (hist ++ [Call.Start md.From]) md.To) = [] ∧
              tail = [Call.Abort]) ∨
           (answeredNil (offered tgt (hist ++ [Call.Start md.From]) md.To) ≠ [] ∧
              (tail = [Call.Body, Call.Abort] ∨ tail = [Call.Body, Call.Commit]))))) := by
  cases hstart : tgt (hist ++ [Call.Start md.From]) with
  | some e =>
    refine ⟨[Call.Start md.From], ?_, Or.inl ⟨by simp, rfl⟩⟩
    simp [deliver, htgt, deliverTo, hstart]
  | none =>
    obtain ⟨h1, h2, _, _, _⟩ :=
      addRcpts_spec D tgt md.To ⟨hist ++ [Call.Start md.From], ⟨[], [], []⟩, []⟩
    simp only [List.nil_append] at h1 h2
    by_cases hacc : answeredNil (offered tgt (hist ++ [Call.Start md.From]) md.To) = []
    · refine ⟨Call.Start md.From :: (md.To.map Call.AddRcpt ++ [Call.Abort]), ?_,
        Or.inr ⟨rfl, _, rfl, Or.inl ⟨hacc, rfl⟩⟩⟩
      simp [deliver, htgt, deliverTo, hstart, h1, h2, hacc]
    · cases hb : tgt (hist ++ Call.Start md.From :: (md.To.map Call.AddRcpt ++ [Call.Body])) with
      | none =>
        refine ⟨Call.Start md.From :: (md.To.map Call.AddRcpt ++ [Call.Body, Call.Commit]), ?_,
          Or.inr ⟨rfl, _, rfl, Or.inr ⟨hacc, Or.inr rfl⟩⟩⟩
        cases hc : tgt (hist ++ Call.Start md.From ::
            (md.To.map Call.AddRcpt ++ [Call.Body, Call.Commit])) <;>
          simp [deliver, htgt, deliverTo, hstart, h1, h2, hacc, hb, hc]
      | some e1 =>
        by_cases habort :
            (expandToPartialErr D (answeredNil (offered tgt (hist ++ [Call.Start md.From]) md.To))
              (addRcpts D tgt md.To ⟨hist ++ [Call.Start md.From], ⟨[], [], []⟩, []⟩).perr
              e1).TemporaryFailed.length +
            (expandToPartialErr D (answeredNil (offered tgt (hist ++ [Call.Start md.From]) md.To))
              (addRcpts D tgt md.To ⟨hist ++ [Call.Start md.From], ⟨[], [], []⟩, []⟩).perr
              e1).Failed.length =
            (answeredNil (offered tgt (hist ++ [Call.Start md.From]) md.To)).length
        · refine ⟨Call.Start md.From :: (md.To.map Call.AddRcpt ++ [Call.Body, Call.Abort]), ?_,
            Or.inr ⟨rfl, _, rfl, Or.inr ⟨hacc, Or.inl rfl⟩⟩⟩
          simp [deliver, htgt, deliverTo, hstart, h1, h2, hacc, hb, habort]
        · refine ⟨Call.Start md.From :: (md.To.map Call.AddRcpt ++ [Call.Body, Call.Commit]), ?_,
            Or.inr ⟨rfl, _, rfl, Or.inr ⟨hacc, Or.inr rfl⟩⟩⟩
          cases hc : tgt (hist ++ Call.Start md.From ::
              (md.To.map Call.AddRcpt ++ [Call.Body, Call.Commit])) <;>
            simp [deliver, htgt, deliverTo, hstart, h1, h2, hacc, hb, hc, habort]

theorem deliver_protocol_witness :
    ∃ calls,
      (deliver sampleDeps (sampleQueue rejectOneFailBody)
        (sampleMeta ["a@example.org", "b@example.org"]) []).map Prod.snd = some ([] ++ calls) ∧
      calls = [Call.Start "sender@example.org", Call.AddRcpt "a@example.org",
        Call.AddRcpt "b@example.org", Call.Body, Call.Commit] := by
  obtain ⟨calls, h, _⟩ :=
    deliver_protocol sampleDeps (sampleQueue rejectOneFailBody)
      (sampleMeta ["a@example.org", "b@example.org"]) [] rejectOneFailBody rfl
  refine ⟨calls, h, ?_⟩
  have h2 : (deliver sampleDeps (sampleQueue rejectOneFailBody)
      (sampleMeta ["a@example.org", "b@example.org"]) []).map Prod.snd =
      some [Call.Start "sender@example.org", Call.AddRcpt "a@example.org",
        Call.AddRcpt "b@example.org", Call.Body, Call.Commit] := by decide
  rw [h2] at h
  simpa using h.symm

/-! ## The source address in `updateMetadataOnDisk` -/

/-- C14, the code at the failing input: the source address of the message is
not a TCP address. `updateMetadataOnDisk` sets the address of the caller's
metadata to nil and hands the copy, with the address still in it, to the
encoder: the assignment of line 569 is to `meta`, not to `metaCopy`. -/
theorem updateMetadataOnDisk_nulls_caller_address :
    ((updateMetadataOnDisk true sampleMetaUnix).1.MsgMeta.SrcAddr,
      (updateMetadataOnDisk true sampleMetaUnix).2.map (fun w => w.MsgMeta.SrcAddr)) =
      (none, some (some (NetAddr.nonTCP "/run/maddy/lmtp.sock"))) := by
  decide

/-! ## The recipients reported in a DSN -/

/-- C15, the code at the failing input: `a@example.org` is rejected temporarily
at the first attempt and delivered at the second, `b@example.org` is rejected
for good. At the second, terminal, run only `b@example.org` is in `FailedRcpts`
and nobody is left in `To`, yet the DSN that `emitDSN` builds has an entry for
`a@example.org` too: the loop of line 686 ranges over all of `RcptErrs`. -/
theorem emitDSN_reports_delivered_recipient :
    (attempts sampleDeps (sampleQueue greylistOnce) sampleEnv 5
        (sampleMeta ["a@example.org", "b@example.org"]) []).map
      (fun r => (r.md.To, r.md.FailedRcpts, r.effects.map Effect.isEmitDSN,
        (emitDSN (sampleQueue greylistOnce) r.md "dsn1").map
          (fun d => d.rcptInfo.map (fun i => i.FinalRecipient)))) =
      [(["a@example.org"], ["b@example.org"], [false, false],
          some ["b@example.org", "a@example.org"]),
       ([], ["b@example.org"], [true, false],
          some ["b@example.org", "a@example.org"])] := by
  decide

/-- The entry that `emitDSN` builds for each entry of `RcptErrs`: the original
recipient when `OriginalRcpts` has a non-empty one, the recipient otherwise;
action `failed`, the enhanced code of the recorded error as status and the error
as diagnostic code. -/
theorem emitDSN_entries (q : Queue) (md : QueueMetadata) (dsnID : String) (d : DSNRequest)
    (h : emitDSN q md dsnID = some d) :
    d.rcptInfo.length = md.RcptErrs.length ∧
    ∀ i (hi : i < md.RcptErrs.length) (hi2 : i < d.rcptInfo.length),
      (d.rcptInfo.get ⟨i, hi2⟩).Action = "failed" ∧
      (d.rcptInfo.get ⟨i, hi2⟩).Status = (md.RcptErrs.get ⟨i, hi⟩).2.EnhancedCode ∧
      (d.rcptInfo.get ⟨i, hi2⟩).DiagnosticCode = (md.RcptErrs.get ⟨i, hi⟩).2 ∧
      (d.rcptInfo.get ⟨i, hi2⟩).FinalRecipient =
        match md.MsgMeta.OriginalRcpts with
        | some originalRcpts =>
          match mapGet originalRcpts (md.RcptErrs.get ⟨i, hi⟩).1 with
          | some original => if original ≠ "" then original else (md.RcptErrs.get ⟨i, hi⟩).1
          | none => (md.RcptErrs.get ⟨i, hi⟩).1
        | none => (md.RcptErrs.get ⟨i, hi⟩).1 := by
  unfold emitDSN at h
  cases hq : q.dsnDispatcher with
  | none => simp [hq] at h
  | some t =>
    simp only [hq, Option.some.injEq] at h
    subst h
    refine ⟨by simp, ?_⟩
    intro i hi hi2
    simp only [List.get_eq_getElem, List.getElem_map, dsnRecipient]
    refine ⟨trivial, trivial, trivial, ?_⟩
    cases ho : md.MsgMeta.OriginalRcpts with
    | none => rfl
    | some o =>
      simp only []
      cases hg : mapGet o (md.RcptErrs[i]).1 <;> simp [Option.getD]

/-! ## Keys of `RcptErrs` -/

theorem allKeyed_append {V : Type} (xs ys : List String) (m : List (String × V)) :
    allKeyed (xs ++ ys) m ↔ allKeyed xs m ∧ allKeyed ys m := by
  unfold allKeyed
  constructor
  · intro h
    exact ⟨fun r hr => h r (List.mem_append_left _ hr), fun r hr => h r (List.mem_append_right _ hr)⟩
  · rintro ⟨h1, h2⟩ r hr
    rcases List.mem_append.mp hr with h | h
    · exact h1 r h
    · exact h2 r h

theorem expandToPartialErr_keyed (D : Deps) (acceptedRcpts : List String) (perr : PartialError)
    (e : GoError) (hwf : wellFormedError e)
    (h : allKeyed (perr.Failed ++ perr.TemporaryFailed) perr.Errs) :
    allKeyed ((expandToPartialErr D acceptedRcpts perr e).Failed ++
        (expandToPartialErr D acceptedRcpts perr e).TemporaryFailed)
      (expandToPartialErr D acceptedRcpts perr e).Errs := by
  have hplain : (∀ f t m, e ≠ .partialError f t m) →
      allKeyed ((expandToPartialErr D acceptedRcpts perr e).Failed ++
          (expandToPartialErr D acceptedRcpts perr e).TemporaryFailed)
        (expandToPartialErr D acceptedRcpts perr e).Errs := by
    intro hp
    obtain ⟨h1, h2, h3⟩ := expandToPartialErr_plain D acceptedRcpts perr e hp
    intro rcpt hr
    rw [h3 rcpt]
    by_cases hacc : rcpt ∈ acceptedRcpts
    · simp [hacc]
    · simp only [hacc, if_false]
      apply h rcpt
      rw [h1, h2] at hr
      cases ht : D.IsTemporaryErr e <;> simp [ht] at hr <;> simp <;> tauto
  cases e with
  | smtp s => exact hplain (by intro f t m hc; cases hc)
  | other text => exact hplain (by intro f t m hc; cases hc)
  | partialError f t m =>
    obtain ⟨h1, h2, h3⟩ := expandToPartialErr_partialError D acceptedRcpts perr f t m
    intro rcpt hr
    rw [h3 rcpt]
    rw [h1, h2] at hr
    cases hg : mapGet m rcpt with
    | some x => simp
    | none =>
      simp only []
      have hnot : ¬ rcpt ∈ f ++ t := by
        intro hm
        have := hwf rcpt hm
        rw [hg] at this
        simp at this
      apply h rcpt
      simp at hr hnot ⊢
      tauto

theorem expandAnswer_keyed (D : Deps) (acceptedRcpts : List String) (perr : PartialError)
    (a : Option GoError) (hwf : ∀ e, a = some e → wellFormedError e)
    (h : allKeyed (perr.Failed ++ perr.TemporaryFailed) perr.Errs) :
    allKeyed ((expandAnswer D acceptedRcpts perr a).Failed ++
        (expandAnswer D acceptedRcpts perr a).TemporaryFailed)
      (expandAnswer D acceptedRcpts perr a).Errs := by
  cases a with
  | none => exact h
  | some e => exact expandToPartialErr_keyed D acceptedRcpts perr e (hwf e rfl) h

theorem addRcpts_keyed (D : Deps) (tgt : DeliveryTarget) (rcpts : List String) (hist : List Call) :
    allKeyed ((addRcpts D tgt rcpts ⟨hist, ⟨[], [], []⟩, []⟩).perr.Failed ++
        (addRcpts D tgt rcpts ⟨hist, ⟨[], [], []⟩, []⟩).perr.TemporaryFailed)
      (addRcpts D tgt rcpts ⟨hist, ⟨[], [], []⟩, []⟩).perr.Errs := by
  obtain ⟨_, _, h3, h4, h5⟩ := addRcpts_spec D tgt rcpts ⟨hist, ⟨[], [], []⟩, []⟩
  simp only [List.nil_append] at h3 h4
  intro rcpt hr
  rw [h5 rcpt]
  rw [h3, h4] at hr
  have hsome := (lastErr_isSome D (offered tgt hist rcpts) rcpt).mpr
    (by rcases List.mem_append.mp hr with h | h
        · exact Or.inr h
        · exact Or.inl h)
  cases hl : lastErr (offered tgt hist rcpts) rcpt with
  | some e => simp
  | none => rw [hl] at hsome; simp at hsome

theorem deliver_keyed (D : Deps) (q : Queue) (md : QueueMetadata) (hist hist1 : List Call)
    (tgt : DeliveryTarget) (perr : PartialError)
    (htgt : deliveryTarget q md = some tgt)
    (hwf : ∀ h c e, c = Call.Body ∨ c = Call.Commit → tgt (h ++ [c]) = some e →
      wellFormedError e)
    (hdel : deliver D q md hist = some (perr, hist1)) :
    allKeyed (perr.Failed ++ perr.TemporaryFailed) perr.Errs := by
  cases hstart : tgt (hist ++ [Call.Start md.From]) with
  | some e =>
    obtain ⟨p, hp, hf, ht, herrs⟩ := deliver_when_start_fails D q md hist tgt e htgt hstart
    rw [hdel] at hp
    simp only [Option.some.injEq, Prod.mk.injEq] at hp
    obtain ⟨rfl, _⟩ := hp
    intro rcpt hr
    rw [herrs rcpt]
    rw [hf, ht] at hr
    simp at hr
    simp [hr]
  | none =>
    by_cases hacc : (addRcpts D tgt md.To
        ⟨hist ++ [Call.Start md.From], ⟨[], [], []⟩, []⟩).acceptedRcpts = []
    · have : perr = (addRcpts D tgt md.To
          ⟨hist ++ [Call.Start md.From], ⟨[], [], []⟩, []⟩).perr := by
        simp [deliver, htgt, deliverTo, hstart, hacc] at hdel
        exact hdel.1.symm
      rw [this]
      exact addRcpts_keyed D tgt md.To _
    · obtain ⟨_, _, p, calls, hp, hcases⟩ :=
        deliver_expands_answers D q md hist tgt _ htgt hstart rfl hacc
      rw [hdel] at hp
      simp only [Option.some.injEq, Prod.mk.injEq] at hp
      obtain ⟨rfl, _⟩ := hp
      have hbody := expandAnswer_keyed D
        (addRcpts D tgt md.To ⟨hist ++ [Call.Start md.From], ⟨[], [], []⟩, []⟩).acceptedRcpts
        (addRcpts D tgt md.To ⟨hist ++ [Call.Start md.From], ⟨[], [], []⟩, []⟩).perr
        (tgt ((addRcpts D tgt md.To ⟨hist ++ [Call.Start md.From], ⟨[], [], []⟩, []⟩).hist ++
          [Call.Body]))
        (fun e he => hwf _ Call.Body e (Or.inl rfl) he)
        (addRcpts_keyed D tgt md.To _)
      rcases hcases with ⟨_, rfl⟩ | ⟨_, rfl⟩
      · exact hbody
      · refine expandAnswer_keyed D _ _ _ (fun e he => ?_) hbody
        have he2 : tgt (((addRcpts D tgt md.To
            ⟨hist ++ [Call.Start md.From], ⟨[], [], []⟩, []⟩).hist ++ [Call.Body]) ++
            [Call.Commit]) = some e := by
          simpa using he
        exact hwf _ Call.Commit e (Or.inr rfl) he2

/-- C16 as stated fails: `Body` answers with a `PartialError` that lists
`a@example.org` as failed and carries no error for it. `FailedRcpts` was empty
before the run; after it `a@example.org` is in `FailedRcpts` and has no key in
`RcptErrs`. -/
theorem tryDelivery_breaks_rcptErrs_invariant :
    ∃ r, tryDelivery sampleDeps (sampleQueue bodyFailsWithoutErrs) sampleEnv
        (sampleMeta ["a@example.org", "b@example.org"]) [] = some r ∧
      allKeyed (sampleMeta ["a@example.org", "b@example.org"]).FailedRcpts
        (sampleMeta ["a@example.org", "b@example.org"]).RcptErrs ∧
      ¬ allKeyed r.md.FailedRcpts r.md.RcptErrs := by
  refine ⟨_, tryDelivery_terminal sampleDeps (sampleQueue bodyFailsWithoutErrs) sampleEnv
    (sampleMeta ["a@example.org", "b@example.org"]) []
    [Call.Start "sender@example.org", Call.AddRcpt "a@example.org",
      Call.AddRcpt "b@example.org", Call.Body, Call.Commit]
    { Failed := ["a@example.org"], TemporaryFailed := [], Errs := [] }
    (by decide) (Or.inr rfl), by decide, by decide⟩

/-- C16, amended: for a downstream whose `PartialError` answers to `Body` and
`Commit` carry an error for every recipient they list, if every recipient of
`meta.FailedRcpts` has a key in `meta.RcptErrs` before `tryDelivery`, then after
it every recipient of `meta.FailedRcpts` and of `meta.To` has one. -/
theorem tryDelivery_rcptErrs_invariant (D : Deps) (q : Queue) (env : AttemptEnv)
    (md : QueueMetadata) (hist : List Call) (tgt : DeliveryTarget)
    (htgt : deliveryTarget q md = some tgt)
    (hwf : ∀ h c e, c = Call.Body ∨ c = Call.Commit → tgt (h ++ [c]) = some e →
      wellFormedError e)
    (hbefore : allKeyed md.FailedRcpts md.RcptErrs) :
    ∃ r, tryDelivery D q env md hist = some r ∧
      allKeyed r.md.FailedRcpts r.md.RcptErrs ∧ allKeyed r.md.To r.md.RcptErrs := by
  obtain ⟨perr, hist1, hdel⟩ : ∃ perr hist1, deliver D q md hist = some (perr, hist1) :=
    ⟨(deliverTo D tgt md hist).1, (deliverTo D tgt md hist).2,
      by simp only [deliver, htgt, Option.map_some']⟩
  have hk := deliver_keyed D q md hist hist1 tgt perr htgt hwf hdel
  obtain ⟨hk1, hk2⟩ := (allKeyed_append _ _ _).mp hk
  obtain ⟨r, hr, _, hto, hfailed, herrs, _⟩ := tryDelivery_fields D q env md hist hist1 perr hdel
  have hnew : ∀ rcpt, (mapGet perr.Errs rcpt).isSome = true →
      (mapGet r.md.RcptErrs rcpt).isSome = true := by
    intro rcpt h
    rw [herrs, mapGet_mapMerge]
    cases hg : mapGet perr.Errs rcpt with
    | some x => simp
    | none => rw [hg] at h; simp at h
  have hold : ∀ rcpt, (mapGet md.RcptErrs rcpt).isSome = true →
      (mapGet r.md.RcptErrs rcpt).isSome = true := by
    intro rcpt h
    rw [herrs, mapGet_mapMerge]
    cases hg : mapGet perr.Errs rcpt with
    | some x => simp
    | none => exact h
  refine ⟨r, hr, ?_, ?_⟩
  · rw [hfailed]
    refine (allKeyed_append _ _ _).mpr ⟨fun rcpt h => hold rcpt (hbefore rcpt h), ?_⟩
    exact fun rcpt h => hnew rcpt (hk1 rcpt h)
  · rw [hto]
    exact fun rcpt h => hnew rcpt (hk2 rcpt h)

theorem tryDelivery_rcptErrs_invariant_witness :
    ∃ r, tryDelivery sampleDeps (sampleQueue bodyFailsForTwo) sampleEnv
        (sampleMeta ["a@example.org", "b@example.org", "c@example.org"]) [] = some r ∧
      allKeyed r.md.FailedRcpts r.md.RcptErrs ∧ allKeyed r.md.To r.md.RcptErrs :=
  tryDelivery_rcptErrs_invariant sampleDeps (sampleQueue bodyFailsForTwo) sampleEnv
    (sampleMeta ["a@example.org", "b@example.org", "c@example.org"]) [] bodyFailsForTwo rfl
    (by
      intro h c e hc he
      rcases hc with rfl | rfl
      · have : e = .partialError ["a@example.org"] ["b@example.org"]
            [("a@example.org", sampleReject), ("b@example.org", .other "try again later")] := by
          simp [bodyFailsForTwo] at he
          exact he.symm
        subst this
        intro rcpt hr
        simp at hr
        rcases hr with rfl | rfl <;> decide
      · simp [bodyFailsForTwo] at he)
    (by decide)

/-! ## DSNs are not bounced -/

theorem updateMetadataOnDisk_written (createOk : Bool) (md w : QueueMetadata)
    (h : (updateMetadataOnDisk createOk md).2 = some w) : w = md := by
  unfold updateMetadataOnDisk at h
  cases createOk with
  | false => simp at h
  | true =>
    cases ha : md.MsgMeta.SrcAddr with
    | none => simp [ha] at h; exact h.symm
    | some a => cases a <;> simp [ha] at h <;> exact h.symm

theorem tryDelivery_DSN (D : Deps) (q : Queue) (env : AttemptEnv) (md : QueueMetadata)
    (hist : List Call) (r : AttemptResult) (hr : tryDelivery D q env md hist = some r) :
    r.md.DSN = md.DSN ∧ (∀ w, r.written = some w → w.DSN = md.DSN) ∧
    (md.DSN = true → ∀ e ∈ r.effects, e.isEmitDSN = false) := by
  cases hdel : deliver D q md hist with
  | none => simp [tryDelivery, hdel] at hr
  | some res =>
    obtain ⟨perr, hist1⟩ := res
    by_cases hterm : md.TriesCount = q.maxTries ∨ perr.TemporaryFailed = []
    · rw [tryDelivery_terminal D q env md hist hist1 perr hdel hterm] at hr
      simp only [Option.some.injEq] at hr
      subst hr
      refine ⟨rfl, by simp, ?_⟩
      intro hd e he
      simp only [hd, if_true, List.nil_append, List.mem_singleton] at he
      subst he
      rfl
    · have htries : md.TriesCount ≠ q.maxTries := fun h => hterm (Or.inl h)
      have htemp : perr.TemporaryFailed ≠ [] := fun h => hterm (Or.inr h)
      obtain ⟨md5, hmd5, htry⟩ := tryDelivery_retry D q env md hist hist1 perr hdel htries htemp
      rw [htry] at hr
      simp only [Option.some.injEq] at hr
      subst hr
      obtain ⟨_, _, _, _, udsn, _⟩ := updateMetadataOnDisk_same env.metaCreateOk md5
      have h5 : md5.DSN = md.DSN := by rw [hmd5]
      refine ⟨by rw [udsn, h5], ?_, ?_⟩
      · intro w hw
        rw [updateMetadataOnDisk_written env.metaCreateOk md5 w hw, h5]
      · intro _ e he
        simp only [List.mem_cons, List.mem_singleton, List.not_mem_nil, or_false] at he
        rcases he with rfl | rfl <;> rfl

theorem attempts_DSN (D : Deps) (q : Queue) (env : AttemptEnv) (fuel : Nat) :
    ∀ (md : QueueMetadata) (hist : List Call), md.DSN = true →
      ∀ r ∈ attempts D q env fuel md hist,
        r.md.DSN = true ∧ ∀ e ∈ r.effects, e.isEmitDSN = false := by
  induction fuel with
  | zero => intro md hist _ r hr; simp [attempts] at hr
  | succ fuel ih =>
    intro md hist hd r hr
    cases ht : tryDelivery D q env md hist with
    | none => simp [attempts, ht] at hr
    | some r0 =>
      obtain ⟨h1, h2, h3⟩ := tryDelivery_DSN D q env md hist r0 ht
      have hnext : (decodeMeta (r0.written.getD md)).DSN = true := by
        cases hw : r0.written with
        | none => simpa [decodeMeta] using hd
        | some w =>
          simp only [Option.getD_some, decodeMeta]
          rw [h2 w hw, hd]
      simp only [attempts, ht] at hr
      split at hr
      · rcases List.mem_cons.mp hr with rfl | hr
        · exact ⟨by rw [h1, hd], h3 hd⟩
        · exact ih _ _ hnext r hr
      · rw [List.mem_singleton] at hr
        subst hr
        exact ⟨by rw [h1, hd], h3 hd⟩

/-- C17: DSNs are never bounced. A message created through `StartDSN` has
`DSN = true`; no run of `tryDelivery` changes the flag, neither in memory nor in
the metadata it writes; no run on a message with `DSN = true` calls `emitDSN`,
terminal or not; the message that `emitDSN` enqueues is created through
`StartDSN`, so it has `DSN = true` and none of its runs calls `emitDSN`. On a
queue with a bounce dispatcher every run on a DSN does return. -/
theorem dsn_never_bounced (D : Deps) (q : Queue) (env : AttemptEnv) :
    (∀ msgMeta mailFrom now1 now2, (StartDSN msgMeta mailFrom now1 now2).DSN = true) ∧
    (∀ md hist r, tryDelivery D q env md hist = some r →
      r.md.DSN = md.DSN ∧ ∀ w, r.written = some w → w.DSN = md.DSN) ∧
    (∀ md hist r, md.DSN = true → tryDelivery D q env md hist = some r →
      ∀ e ∈ r.effects, e.isEmitDSN = false) ∧
    (∀ md dsnID now1 now2 dmd, emitDSNMetadata q md dsnID now1 now2 = some dmd →
      dmd.DSN = true ∧
      ∀ fuel hist, ∀ r ∈ attempts D q env fuel dmd hist,
        r.md.DSN = true ∧ ∀ e ∈ r.effects, e.isEmitDSN = false) ∧
    (∀ md hist, md.DSN = true → q.dsnDispatcher.isSome = true →
      ∃ r, tryDelivery D q env md hist = some r) := by
  refine ⟨fun _ _ _ _ => rfl, ?_, ?_, ?_, ?_⟩
  · intro md hist r hr
    obtain ⟨h1, h2, _⟩ := tryDelivery_DSN D q env md hist r hr
    exact ⟨h1, h2⟩
  · intro md hist r hd hr
    exact (tryDelivery_DSN D q env md hist r hr).2.2 hd
  · intro md dsnID now1 now2 dmd h
    have hd : dmd.DSN = true := by
      unfold emitDSNMetadata at h
      cases he : emitDSN q md dsnID with
      | none => simp [he] at h
      | some d =>
        simp only [he, Option.map_some', Option.some.injEq] at h
        subst h
        rfl
    exact ⟨hd, fun fuel hist => attempts_DSN D q env fuel dmd hist hd⟩
  · intro md hist hd hq
    cases hdisp : q.dsnDispatcher with
    | none => rw [hdisp] at hq; simp at hq
    | some t =>
      have hdel : deliver D q md hist =
          some ((deliverTo D t md hist).1, (deliverTo D t md hist).2) := by
        simp [deliver, deliveryTarget, hd, hdisp]
      obtain ⟨r, hr, _⟩ := tryDelivery_fields D q env md hist _ _ hdel
      exact ⟨r, hr⟩

theorem dsn_never_bounced_witness :
    ∃ dmd, emitDSNMetadata (sampleQueue greylisting) (sampleMeta ["a@example.org"]) "dsn1" 3000 3001 =
        some dmd ∧
      dmd.DSN = true ∧ dmd.To = ["sender@example.org"] ∧
      (attempts sampleDeps (sampleQueue greylisting) sampleEnv 20 dmd []).length = 1 ∧
      ∀ r ∈ attempts sampleDeps (sampleQueue greylisting) sampleEnv 20 dmd [],
        r.md.DSN = true ∧ ∀ e ∈ r.effects, e.isEmitDSN = false := by
  refine ⟨_, rfl, by decide, by decide, by decide, ?_⟩
  exact ((dsn_never_bounced sampleDeps (sampleQueue greylisting) sampleEnv).2.2.2.1
    (sampleMeta ["a@example.org"]) "dsn1" 3000 3001 _ rfl).2 20 []

/-! ## File names -/

theorem append_meta_inj (x y : String) (h : x ++ ".meta" = y ++ ".meta") : x = y := by
  have hd := congrArg String.data h
  simp only [String.data_append] at hd
  exact String.ext (List.append_cancel_right hd)

theorem append_header_inj (x y : String) (h : x ++ ".header" = y ++ ".header") : x = y := by
  have hd := congrArg String.data h
  simp only [String.data_append] at hd
  exact String.ext (List.append_cancel_right hd)

theorem append_body_inj (x y : String) (h : x ++ ".body" = y ++ ".body") : x = y := by
  have hd := congrArg String.data h
  simp only [String.data_append] at hd
  exact String.ext (List.append_cancel_right hd)

theorem meta_ne_header (x y : String) : x ++ ".meta" ≠ y ++ ".header" := by
  intro h
  have hd := congrArg (fun s => s.data.getLast?) h
  simp [String.data_append, List.getLast?_append] at hd

theorem meta_ne_body (x y : String) : x ++ ".meta" ≠ y ++ ".body" := by
  intro h
  have hd := congrArg (fun s => s.data.getLast?) h
  simp [String.data_append, List.getLast?_append] at hd

theorem header_ne_body (x y : String) : x ++ ".header" ≠ y ++ ".body" := by
  intro h
  have hd := congrArg (fun s => s.data.getLast?) h
  simp [String.data_append, List.getLast?_append] at hd

theorem hasSuffix_append_meta (x : String) : hasSuffix (x ++ ".meta") ".meta" = true := by
  unfold hasSuffix
  rw [List.isSuffixOf_iff_suffix, String.data_append]
  exact List.suffix_append _ _

theorem trimMetaSuffix_append_meta (x : String) : trimMetaSuffix (x ++ ".meta") = x := by
  unfold trimMetaSuffix
  apply String.ext
  simp only [String.data_append]
  have h5 : (".meta" : String).data.length = 5 := by decide
  rw [List.length_append, h5, Nat.add_sub_cancel, List.take_left']
  rfl

theorem name_of_hasSuffix_meta (name : String) (h : hasSuffix name ".meta" = true) :
    name = trimMetaSuffix name ++ ".meta" := by
  unfold hasSuffix at h
  rw [List.isSuffixOf_iff_suffix] at h
  obtain ⟨t, ht⟩ := h
  have hn : name = (⟨t⟩ : String) ++ ".meta" := by
    apply String.ext
    rw [String.data_append]
    exact ht.symm
  rw [hn, trimMetaSuffix_append_meta]

/-! ## The directory -/

theorem diskFind_cons (e : DirEntry) (rest : List DirEntry) (m : String) :
    diskFind (e :: rest) m = if e.name = m then some e else diskFind rest m := by
  unfold diskFind
  by_cases h : e.name = m <;> simp [List.find?_cons, h]

theorem diskRemove_cons (e : DirEntry) (rest : List DirEntry) (n : String) :
    diskRemove (e :: rest) n =
      if e.name = n then diskRemove rest n else e :: diskRemove rest n := by
  unfold diskRemove
  by_cases h : e.name = n <;> simp [List.filter_cons, h]

theorem diskFind_diskRemove (disk : List DirEntry) (n m : String) :
    diskFind (diskRemove disk n) m = if m = n then none else diskFind disk m := by
  induction disk with
  | nil => simp [diskFind, diskRemove]
  | cons e rest ih =>
    rw [diskRemove_cons, diskFind_cons]
    by_cases hen : e.name = n
    · rw [if_pos hen, ih]
      by_cases hmn : m = n
      · rw [if_pos hmn, if_pos hmn]
      · have hem : ¬ e.name = m := fun h => hmn (h.symm.trans hen)
        rw [if_neg hmn, if_neg hmn, if_neg hem]
    · rw [if_neg hen, diskFind_cons]
      by_cases hem : e.name = m
      · have hmn : ¬ m = n := fun h => hen (hem.trans h)
        rw [if_pos hem, if_neg hmn, if_pos hem]
      · rw [if_neg hem, ih, if_neg hem]

theorem diskFind_some_name (disk : List DirEntry) (n : String) (e : DirEntry)
    (h : diskFind disk n = some e) : e ∈ disk ∧ e.name = n := by
  unfold diskFind at h
  exact ⟨List.mem_of_find?_eq_some h, by simpa using List.find?_some h⟩

theorem diskFind_isSome_of_mem (disk : List DirEntry) (e : DirEntry) (h : e ∈ disk) :
    (diskFind disk e.name).isSome = true := by
  unfold diskFind
  rw [List.find?_isSome]
  exact ⟨e, h, by simp⟩

theorem diskFind_of_mem_nodup (disk : List DirEntry) (e : DirEntry)
    (hnodup : (disk.map (fun x => x.name)).Nodup) (h : e ∈ disk) :
    diskFind disk e.name = some e := by
  induction disk with
  | nil => cases h
  | cons x rest ih =>
    rw [List.map_cons, List.nodup_cons] at hnodup
    unfold diskFind
    rcases List.mem_cons.mp h with rfl | hr
    · simp [List.find?_cons]
    · have hne : ¬ x.name = e.name := by
        intro hx
        exact hnodup.1 (hx ▸ List.mem_map_of_mem (fun x => x.name) hr)
      simp only [List.find?_cons, hne, decide_False]
      exact ih hnodup.2 hr

/-! ## One iteration of `readDiskQueue` -/

theorem loadEntry_not_metaFile (q : Queue) (env : StartupEnv) (s : LoadState) (e : DirEntry)
    (h : isMetaFile e = false) : loadEntry q env s e = s := by
  unfold isMetaFile at h
  unfold loadEntry
  cases hd : e.isDir <;> cases hs : hasSuffix e.name ".meta" <;> simp_all

theorem loadEntry_metaFile (q : Queue) (env : StartupEnv) (s : LoadState) (e : DirEntry)
    (h : isMetaFile e = true) :
    loadEntry q env s e =
      applyVerdict q env s (trimMetaSuffix e.name)
        (verdict env.ioError s.disk (trimMetaSuffix e.name)) := by
  unfold isMetaFile at h
  have hd : e.isDir = false := by cases hd : e.isDir <;> simp_all
  have hs : hasSuffix e.name ".meta" = true := by cases hs : hasSuffix e.name ".meta" <;> simp_all
  unfold loadEntry verdict
  simp only [hd, hs, Bool.not_true, Bool.or_self, Bool.false_eq_true, if_false]
  cases readMessageMeta env.ioError s.disk (trimMetaSuffix e.name) with
  | none => rfl
  | some md =>
    simp only []
    cases osStat env.ioError s.disk (trimMetaSuffix e.name ++ ".header") with
    | notExist => rfl
    | failed => rfl
    | found =>
      simp only []
      cases osStat env.ioError s.disk (trimMetaSuffix e.name ++ ".body") <;> rfl

theorem verdict_congr (ioError : String → Bool) (d1 d2 : List DirEntry) (id : String)
    (h : ∀ n ∈ filesOf id, diskFind d1 n = diskFind d2 n) :
    verdict ioError d1 id = verdict ioError d2 id := by
  have hm := h (id ++ ".meta") (by simp [filesOf])
  have hh := h (id ++ ".header") (by simp [filesOf])
  have hb := h (id ++ ".body") (by simp [filesOf])
  unfold verdict readMessageMeta osStat
  rw [hm, hh, hb]

theorem filesOf_disjoint (x y : String) (hxy : x ≠ y) (n : String) (hx : n ∈ filesOf x) :
    n ∉ filesOf y := by
  intro hy
  simp only [filesOf, List.mem_cons, List.mem_singleton, List.not_mem_nil, or_false] at hx hy
  rcases hx with rfl | rfl | rfl <;> rcases hy with h | h | h
  · exact hxy (append_meta_inj _ _ h)
  · exact meta_ne_header _ _ h
  · exact meta_ne_body _ _ h
  · exact meta_ne_header _ _ h.symm
  · exact hxy (append_header_inj _ _ h)
  · exact header_ne_body _ _ h
  · exact meta_ne_body _ _ h.symm
  · exact header_ne_body _ _ h.symm
  · exact hxy (append_body_inj _ _ h)

theorem applyVerdict_frame (q : Queue) (env : StartupEnv) (s : LoadState) (id : String)
    (v : Verdict) (n : String) (hn : n ∉ filesOf id) :
    diskFind (applyVerdict q env s id v).disk n = diskFind s.disk n := by
  simp only [filesOf, List.mem_cons, List.mem_singleton, List.not_mem_nil, or_false,
    not_or] at hn
  obtain ⟨h1, h2, h3⟩ := hn
  cases v <;> simp [applyVerdict, diskFind_diskRemove, h1, h2, h3]

theorem applyVerdict_absent (q : Queue) (env : StartupEnv) (s : LoadState) (id : String)
    (v : Verdict) (n : String) (hn : diskFind s.disk n = none) :
    diskFind (applyVerdict q env s id v).disk n = none := by
  cases v <;> simp [applyVerdict, diskFind_diskRemove, hn]

theorem applyVerdict_wheel_other (q : Queue) (env : StartupEnv) (s : LoadState) (id : String)
    (v : Verdict) (x : String) (hx : id ≠ x) :
    (applyVerdict q env s id v).wheel.filter (fun p => decide (p.2 = x)) =
      s.wheel.filter (fun p => decide (p.2 = x)) := by
  cases v <;> simp [applyVerdict, List.filter_append, List.filter_cons, hx]

/-! ## The loop of `readDiskQueue` -/

theorem loadEntry_frame (q : Queue) (env : StartupEnv) (s : LoadState) (e : DirEntry)
    (n : String) (hn : isMetaFile e = true → n ∉ filesOf (trimMetaSuffix e.name)) :
    diskFind (loadEntry q env s e).disk n = diskFind s.disk n := by
  cases hm : isMetaFile e with
  | false => rw [loadEntry_not_metaFile q env s e hm]
  | true => rw [loadEntry_metaFile q env s e hm]; exact applyVerdict_frame q env s _ _ n (hn hm)

theorem loadEntry_absent (q : Queue) (env : StartupEnv) (s : LoadState) (e : DirEntry)
    (n : String) (hn : diskFind s.disk n = none) :
    diskFind (loadEntry q env s e).disk n = none := by
  cases hm : isMetaFile e with
  | false => rw [loadEntry_not_metaFile q env s e hm]; exact hn
  | true => rw [loadEntry_metaFile q env s e hm]; exact applyVerdict_absent q env s _ _ n hn

theorem loadEntry_wheel_other (q : Queue) (env : StartupEnv) (s : LoadState) (e : DirEntry)
    (x : String) (hx : isMetaFile e = true → trimMetaSuffix e.name ≠ x) :
    (loadEntry q env s e).wheel.filter (fun p => decide (p.2 = x)) =
      s.wheel.filter (fun p => decide (p.2 = x)) := by
  cases hm : isMetaFile e with
  | false => rw [loadEntry_not_metaFile q env s e hm]
  | true =>
    rw [loadEntry_metaFile q env s e hm]
    exact applyVerdict_wheel_other q env s _ _ x (hx hm)

theorem foldl_loadEntry_frame (q : Queue) (env : StartupEnv) (entries : List DirEntry)
    (n : String) :
    ∀ s : LoadState,
      (∀ e ∈ entries, isMetaFile e = true → n ∉ filesOf (trimMetaSuffix e.name)) →
      diskFind (entries.foldl (loadEntry q env) s).disk n = diskFind s.disk n := by
  induction entries with
  | nil => intro s _; rfl
  | cons e rest ih =>
    intro s h
    rw [List.foldl_cons, ih _ (fun e' he' => h e' (List.mem_cons_of_mem _ he'))]
    exact loadEntry_frame q env s e n (h e (List.mem_cons_self _ _))

theorem foldl_loadEntry_absent (q : Queue) (env : StartupEnv) (entries : List DirEntry)
    (n : String) :
    ∀ s : LoadState, diskFind s.disk n = none →
      diskFind (entries.foldl (loadEntry q env) s).disk n = none := by
  induction entries with
  | nil => intro s h; exact h
  | cons e rest ih =>
    intro s h
    rw [List.foldl_cons]
    exact ih _ (loadEntry_absent q env s e n h)

theorem foldl_loadEntry_wheel_other (q : Queue) (env : StartupEnv) (entries : List DirEntry)
    (x : String) :
    ∀ s : LoadState,
      (∀ e ∈ entries, isMetaFile e = true → trimMetaSuffix e.name ≠ x) →
      (entries.foldl (loadEntry q env) s).wheel.filter (fun p => decide (p.2 = x)) =
        s.wheel.filter (fun p => decide (p.2 = x)) := by
  induction entries with
  | nil => intro s _; rfl
  | cons e rest ih =>
    intro s h
    rw [List.foldl_cons, ih _ (fun e' he' => h e' (List.mem_cons_of_mem _ he'))]
    exact loadEntry_wheel_other q env s e x (h e (List.mem_cons_self _ _))

theorem id_ne_of_name_ne (e e' : DirEntry) (he : isMetaFile e = true)
    (he' : isMetaFile e' = true) (hne : e'.name ≠ e.name) :
    trimMetaSuffix e'.name ≠ trimMetaSuffix e.name := by
  unfold isMetaFile at he he'
  have hs : hasSuffix e.name ".meta" = true := by
    cases h : hasSuffix e.name ".meta" <;> simp_all
  have hs' : hasSuffix e'.name ".meta" = true := by
    cases h : hasSuffix e'.name ".meta" <;> simp_all
  intro h
  apply hne
  rw [name_of_hasSuffix_meta e.name hs, name_of_hasSuffix_meta e'.name hs', h]

theorem applyVerdict_congr (q : Queue) (env : StartupEnv) (s1 s2 : LoadState) (id : String)
    (v : Verdict) (n : String) (h : diskFind s1.disk n = diskFind s2.disk n) :
    diskFind (applyVerdict q env s1 id v).disk n = diskFind (applyVerdict q env s2 id v).disk n := by
  cases v <;> simp [applyVerdict, diskFind_diskRemove, h]

theorem applyVerdict_wheel_self (q : Queue) (env : StartupEnv) (s : LoadState) (id : String)
    (v : Verdict) (d : List DirEntry) (h : s.wheel.filter (fun p => decide (p.2 = id)) = []) :
    (applyVerdict q env s id v).wheel.filter (fun p => decide (p.2 = id)) =
      (applyVerdict q env { disk := d, wheel := [] } id v).wheel := by
  cases v <;> simp [applyVerdict, List.filter_append, h]

/-- What `readDiskQueue` does about the id of one metadata file of the directory:
its entries in the wheel and its three files are those that the decision taken
on the initial directory gives. -/
theorem readDiskQueue_id (q : Queue) (env : StartupEnv) (disk : List DirEntry) (e : DirEntry)
    (hnodup : (disk.map (fun x => x.name)).Nodup) (he : e ∈ disk)
    (hm : isMetaFile e = true) :
    (readDiskQueue q env disk).wheel.filter (fun p => decide (p.2 = trimMetaSuffix e.name)) =
      (applyVerdict q env { disk := disk, wheel := [] } (trimMetaSuffix e.name)
        (verdict env.ioError disk (trimMetaSuffix e.name))).wheel ∧
    ∀ n ∈ filesOf (trimMetaSuffix e.name),
      diskFind (readDiskQueue q env disk).disk n =
        diskFind (applyVerdict q env { disk := disk, wheel := [] } (trimMetaSuffix e.name)
          (verdict env.ioError disk (trimMetaSuffix e.name))).disk n := by
  obtain ⟨l1, l2, hsplit⟩ := List.append_of_mem he
  subst hsplit
  have hnames : ∀ e' ∈ l1 ++ l2, e'.name ≠ e.name := by
    intro e' he' hname
    rw [List.map_append, List.map_cons] at hnodup
    have hnd := List.nodup_middle.mp hnodup
    rw [List.nodup_cons] at hnd
    apply hnd.1
    rw [← List.map_append, ← hname]
    exact List.mem_map_of_mem (fun x => x.name) he'
  have hids : ∀ e' ∈ l1 ++ l2, isMetaFile e' = true →
      trimMetaSuffix e'.name ≠ trimMetaSuffix e.name :=
    fun e' he' hm' => id_ne_of_name_ne e e' hm hm' (hnames e' he')
  have hfiles : ∀ n ∈ filesOf (trimMetaSuffix e.name), ∀ e' ∈ l1 ++ l2,
      isMetaFile e' = true → n ∉ filesOf (trimMetaSuffix e'.name) :=
    fun n hn e' he' hm' => filesOf_disjoint _ _ (hids e' he' hm').symm n hn
  have hread : readDiskQueue q env (l1 ++ e :: l2) =
      l2.foldl (loadEntry q env)
        (loadEntry q env
          (l1.foldl (loadEntry q env) { disk := l1 ++ e :: l2, wheel := [] }) e) := by
    unfold readDiskQueue
    rw [List.foldl_append, List.foldl_cons]
  have h1disk : ∀ n ∈ filesOf (trimMetaSuffix e.name),
      diskFind (l1.foldl (loadEntry q env) { disk := l1 ++ e :: l2, wheel := [] }).disk n =
        diskFind (l1 ++ e :: l2) n :=
    fun n hn => foldl_loadEntry_frame q env l1 n _
      (fun e' he' => hfiles n hn e' (List.mem_append_left _ he'))
  have h1wheel : (l1.foldl (loadEntry q env) { disk := l1 ++ e :: l2, wheel := [] }).wheel.filter
      (fun p => decide (p.2 = trimMetaSuffix e.name)) = [] := by
    rw [foldl_loadEntry_wheel_other q env l1 _ _
      (fun e' he' => hids e' (List.mem_append_left _ he'))]
    rfl
  have hv : verdict env.ioError
      (l1.foldl (loadEntry q env) { disk := l1 ++ e :: l2, wheel := [] }).disk
      (trimMetaSuffix e.name) = verdict env.ioError (l1 ++ e :: l2) (trimMetaSuffix e.name) :=
    verdict_congr _ _ _ _ h1disk
  rw [hread]
  constructor
  · rw [foldl_loadEntry_wheel_other q env l2 _ _
      (fun e' he' => hids e' (List.mem_append_right _ he')),
      loadEntry_metaFile q env _ e hm, hv]
    exact applyVerdict_wheel_self q env _ _ _ _ h1wheel
  · intro n hn
    rw [foldl_loadEntry_frame q env l2 n _
      (fun e' he' => hfiles n hn e' (List.mem_append_right _ he')),
      loadEntry_metaFile q env _ e hm, hv]
    exact applyVerdict_congr q env _ _ _ _ n (h1disk n hn)

theorem readMessageMeta_some (ioError : String → Bool) (disk : List DirEntry) (id : String)
    (md : QueueMetadata) (h : readMessageMeta ioError disk id = some md) :
    ioError (id ++ ".meta") = false ∧
    ∃ e m, diskFind disk (id ++ ".meta") = some e ∧ e.isDir = false ∧
      e.data = FileData.metaJSON m ∧ md = decodeMeta m := by
  unfold readMessageMeta at h
  cases hio : ioError (id ++ ".meta") with
  | true => simp [hio] at h
  | false =>
    simp only [hio, Bool.false_eq_true, if_false] at h
    cases hf : diskFind disk (id ++ ".meta") with
    | none => simp [hf] at h
    | some e =>
      simp only [hf] at h
      cases hd : e.isDir with
      | true => simp [hd] at h
      | false =>
        simp only [hd, Bool.false_eq_true, if_false] at h
        cases hdata : e.data with
        | metaJSON m =>
          simp only [hdata, Option.some.injEq] at h
          exact ⟨rfl, e, m, rfl, hd, hdata, h.symm⟩
        | headerText w => simp [hdata] at h
        | bytes => simp [hdata] at h

theorem metaFile_of_readMessageMeta (ioError : String → Bool) (disk : List DirEntry)
    (id : String) (md : QueueMetadata) (h : readMessageMeta ioError disk id = some md) :
    ∃ e ∈ disk, isMetaFile e = true ∧ trimMetaSuffix e.name = id := by
  obtain ⟨_, e, _, hf, hd, _, _⟩ := readMessageMeta_some ioError disk id md h
  obtain ⟨hmem, hname⟩ := diskFind_some_name disk _ e hf
  refine ⟨e, hmem, ?_, ?_⟩
  · unfold isMetaFile
    rw [hd, hname, hasSuffix_append_meta]
    rfl
  · rw [hname, trimMetaSuffix_append_meta]

/-- The entries of an id in the wheel after `readDiskQueue`, for any id. -/
theorem readDiskQueue_wheel_filter (q : Queue) (env : StartupEnv) (disk : List DirEntry)
    (id : String) (hnodup : (disk.map (fun x => x.name)).Nodup) :
    (readDiskQueue q env disk).wheel.filter (fun p => decide (p.2 = id)) =
      (applyVerdict q env { disk := disk, wheel := [] } id (verdict env.ioError disk id)).wheel := by
  by_cases hex : ∃ e ∈ disk, isMetaFile e = true ∧ trimMetaSuffix e.name = id
  · obtain ⟨e, he, hm, hid⟩ := hex
    subst hid
    exact (readDiskQueue_id q env disk e hnodup he hm).1
  · have hnone : ∀ e ∈ disk, isMetaFile e = true → trimMetaSuffix e.name ≠ id :=
      fun e he hm hid => hex ⟨e, he, hm, hid⟩
    unfold readDiskQueue
    rw [foldl_loadEntry_wheel_other q env disk id _ hnone]
    cases hv : verdict env.ioError disk id with
    | skip => rfl
    | dropMetaBody => rfl
    | dropMetaHeader => rfl
    | load md =>
      exfalso
      unfold verdict at hv
      cases hr : readMessageMeta env.ioError disk id with
      | none => simp [hr] at hv
      | some md' =>
        obtain ⟨e, he, hm, hid⟩ := metaFile_of_readMessageMeta _ _ _ _ hr
        exact hnone e he hm hid

theorem not_mem_wheel_of_filter_nil (wheel : List (Int × String)) (id : String)
    (h : wheel.filter (fun p => decide (p.2 = id)) = []) (t : Int) : (t, id) ∉ wheel := by
  intro hmem
  have : (t, id) ∈ wheel.filter (fun p => decide (p.2 = id)) :=
    List.mem_filter.mpr ⟨hmem, by simp⟩
  rw [h] at this
  cases this

theorem osStat_notExist (ioError : String → Bool) (disk : List DirEntry) (n : String)
    (h : osStat ioError disk n = StatResult.notExist) : diskFind disk n = none := by
  unfold osStat at h
  cases hio : ioError n with
  | true => simp [hio] at h
  | false =>
    cases hf : diskFind disk n with
    | none => rfl
    | some e => simp [hio, hf] at h

theorem mem_of_diskFind_same (disk final : List DirEntry) (e : DirEntry)
    (hnodup : (disk.map (fun x => x.name)).Nodup) (he : e ∈ disk)
    (h : diskFind final e.name = diskFind disk e.name) : e ∈ final := by
  rw [diskFind_of_mem_nodup disk e hnodup he] at h
  exact (diskFind_some_name _ _ _ h).1

/-- An entry whose name is not one of the three names of an id that has a
metadata file stays in the directory. -/
theorem readDiskQueue_frame (q : Queue) (env : StartupEnv) (disk : List DirEntry)
    (hnodup : (disk.map (fun x => x.name)).Nodup) (e : DirEntry) (he : e ∈ disk)
    (hother : ∀ e' ∈ disk, isMetaFile e' = true → e.name ∉ filesOf (trimMetaSuffix e'.name)) :
    e ∈ (readDiskQueue q env disk).disk := by
  apply mem_of_diskFind_same disk _ e hnodup he
  unfold readDiskQueue
  exact foldl_loadEntry_frame q env disk e.name _ hother

/-- The files of an id that is skipped or loaded stay in the directory. -/
theorem readDiskQueue_keeps (q : Queue) (env : StartupEnv) (disk : List DirEntry) (id : String)
    (hnodup : (disk.map (fun x => x.name)).Nodup)
    (hv : verdict env.ioError disk id = Verdict.skip ∨
      ∃ md, verdict env.ioError disk id = Verdict.load md)
    (e : DirEntry) (he : e ∈ disk) (hmem : e.name ∈ filesOf id) :
    e ∈ (readDiskQueue q env disk).disk := by
  by_cases hex : ∃ e' ∈ disk, isMetaFile e' = true ∧ trimMetaSuffix e'.name = id
  · obtain ⟨e', he', hm', hid⟩ := hex
    subst hid
    apply mem_of_diskFind_same disk _ e hnodup he
    rw [(readDiskQueue_id q env disk e' hnodup he' hm').2 e.name hmem]
    have hsame : (applyVerdict q env { disk := disk, wheel := [] } (trimMetaSuffix e'.name)
        (verdict env.ioError disk (trimMetaSuffix e'.name))).disk = disk := by
      rcases hv with h | ⟨md', h⟩ <;> rw [h] <;> rfl
    rw [hsame]
  · apply readDiskQueue_frame q env disk hnodup e he
    intro e' he' hm'
    have hne : id ≠ trimMetaSuffix e'.name := fun h => hex ⟨e', he', hm', h.symm⟩
    exact filesOf_disjoint id _ hne e.name hmem

theorem verdict_skip_or_load (ioError : String → Bool) (disk : List DirEntry) (id : String)
    (h : readMessageMeta ioError disk id = none ∨
      osStat ioError disk (id ++ ".header") = StatResult.failed ∨
      (osStat ioError disk (id ++ ".header") = StatResult.found ∧
        osStat ioError disk (id ++ ".body") ≠ StatResult.notExist)) :
    verdict ioError disk id = Verdict.skip ∨ ∃ md, verdict ioError disk id = Verdict.load md := by
  unfold verdict
  cases hr : readMessageMeta ioError disk id with
  | none => exact Or.inl rfl
  | some md =>
    rcases h with h | h | ⟨hh, hb⟩
    · rw [hr] at h; cases h
    · simp only [h]; exact Or.inl trivial
    · simp only [hh]
      cases hbody : osStat ioError disk (id ++ ".body") with
      | notExist => exact absurd hbody hb
      | failed => exact Or.inl rfl
      | found => exact Or.inr ⟨md, rfl⟩

/-- A fragment is dropped: after `readDiskQueue` none of its three files is
left and it has no entry in the wheel. -/
theorem readDiskQueue_dropped (q : Queue) (env : StartupEnv) (disk : List DirEntry)
    (hnodup : (disk.map (fun x => x.name)).Nodup) (id : String) (md : QueueMetadata)
    (hmeta : readMessageMeta env.ioError disk id = some md)
    (hmissing : osStat env.ioError disk (id ++ ".header") = StatResult.notExist ∨
      (osStat env.ioError disk (id ++ ".header") = StatResult.found ∧
        osStat env.ioError disk (id ++ ".body") = StatResult.notExist)) :
    (∀ n ∈ filesOf id, diskFind (readDiskQueue q env disk).disk n = none) ∧
    ∀ t, (t, id) ∉ (readDiskQueue q env disk).wheel := by
  obtain ⟨e, he, hm, hid⟩ := metaFile_of_readMessageMeta _ _ _ _ hmeta
  subst hid
  obtain ⟨hwheel, hfiles⟩ := readDiskQueue_id q env disk e hnodup he hm
  rcases hmissing with hh | ⟨hh, hb⟩
  · have hv : verdict env.ioError disk (trimMetaSuffix e.name) = Verdict.dropMetaBody := by
      unfold verdict
      rw [hmeta, hh]
    have hhnone := osStat_notExist _ _ _ hh
    constructor
    · intro n hn
      rw [hfiles n hn, hv]
      simp only [filesOf, List.mem_cons, List.mem_singleton, List.not_mem_nil, or_false] at hn
      simp only [applyVerdict, diskFind_diskRemove]
      rcases hn with rfl | rfl | rfl
      · simp [meta_ne_body]
      · simp [hhnone]
      · simp
    · intro t
      apply not_mem_wheel_of_filter_nil
      rw [hwheel, hv]
      rfl
  · have hv : verdict env.ioError disk (trimMetaSuffix e.name) = Verdict.dropMetaHeader := by
      unfold verdict
      rw [hmeta, hh]
      simp only []
      rw [hb]
    have hbnone := osStat_notExist _ _ _ hb
    constructor
    · intro n hn
      rw [hfiles n hn, hv]
      simp only [filesOf, List.mem_cons, List.mem_singleton, List.not_mem_nil, or_false] at hn
      simp only [applyVerdict, diskFind_diskRemove]
      rcases hn with rfl | rfl | rfl
      · simp [meta_ne_header]
      · simp
      · simp [hbnone]
    · intro t
      apply not_mem_wheel_of_filter_nil
      rw [hwheel, hv]
      rfl

/-! ## Startup reconciliation -/

/-- C11 as stated fails: the metadata of `m4` parses and its header is missing,
but `os.Stat` of the header fails with an error other than "does not exist".
`readDiskQueue` logs it and skips the id: `m4.meta` and `m4.body` are still in
the directory afterwards. -/
theorem readDiskQueue_keeps_unstatable_fragment :
    readMessageMeta sampleStartupStatError.ioError sampleDirNoHeader "m4" =
      some (sampleStored "m4") ∧
    diskFind sampleDirNoHeader "m4.header" = none ∧
    readDiskQueue (sampleQueue acceptAll) sampleStartupStatError sampleDirNoHeader =
      { disk := sampleDirNoHeader, wheel := [] } := by
  decide

/-- C11, amended: startup reconciliation. For a message id whose `.meta` file
exists and parses and for which `os.Stat` reports the `.header` missing, or
finds the `.header` and reports the `.body` missing, none of the three files of
the id exists after `readDiskQueue` (removals succeeding) and the id is not
scheduled. An entry whose name is not one of the three names of an id that has
a metadata file is left in the directory as it was: in particular a `.header`
or `.body` file of an id without `.meta` file. So are the files of an id whose
metadata cannot be read or parsed, for which `os.Stat` of the `.header` fails
with another error, or for which it finds the `.header` and does not report the
`.body` missing. -/
theorem readDiskQueue_drops_fragments (q : Queue) (env : StartupEnv) (disk : List DirEntry)
    (hnodup : (disk.map (fun x => x.name)).Nodup) :
    (∀ id md, readMessageMeta env.ioError disk id = some md →
      (osStat env.ioError disk (id ++ ".header") = StatResult.notExist ∨
        (osStat env.ioError disk (id ++ ".header") = StatResult.found ∧
          osStat env.ioError disk (id ++ ".body") = StatResult.notExist)) →
      (∀ n ∈ filesOf id, diskFind (readDiskQueue q env disk).disk n = none) ∧
      ∀ t, (t, id) ∉ (readDiskQueue q env disk).wheel) ∧
    (∀ e ∈ disk,
      (∀ e' ∈ disk, isMetaFile e' = true → e.name ∉ filesOf (trimMetaSuffix e'.name)) →
      e ∈ (readDiskQueue q env disk).disk) ∧
    (∀ e ∈ disk, ∀ y, (e.name = y ++ ".header" ∨ e.name = y ++ ".body") →
      diskFind disk (y ++ ".meta") = none → e ∈ (readDiskQueue q env disk).disk) ∧
    (∀ e ∈ disk, ∀ id, e.name ∈ filesOf id →
      (readMessageMeta env.ioError disk id = none ∨
        osStat env.ioError disk (id ++ ".header") = StatResult.failed ∨
        (osStat env.ioError disk (id ++ ".header") = StatResult.found ∧
          osStat env.ioError disk (id ++ ".body") ≠ StatResult.notExist)) →
      e ∈ (readDiskQueue q env disk).disk) := by
  refine ⟨fun id md hmeta hmissing => readDiskQueue_dropped q env disk hnodup id md hmeta hmissing,
    fun e he hother => readDiskQueue_frame q env disk hnodup e he hother, ?_,
    fun e he id hmem hv =>
      readDiskQueue_keeps q env disk id hnodup (verdict_skip_or_load _ _ _ hv) e he hmem⟩
  intro e0 he0 y hy hnometa
  apply readDiskQueue_frame q env disk hnodup e0 he0
  intro e' he' hm' hmem
  have hname' : e'.name = trimMetaSuffix e'.name ++ ".meta" := by
    unfold isMetaFile at hm'
    have hs : hasSuffix e'.name ".meta" = true := by
      cases h : hasSuffix e'.name ".meta" <;> simp_all
    exact name_of_hasSuffix_meta _ hs
  have hy' : y = trimMetaSuffix e'.name := by
    simp only [filesOf, List.mem_cons, List.mem_singleton, List.not_mem_nil, or_false] at hmem
    rcases hy with hy | hy <;> rw [hy] at hmem <;> rcases hmem with h | h | h
    · exact absurd h.symm (meta_ne_header _ _)
    · exact append_header_inj _ _ h
    · exact absurd h (header_ne_body _ _)
    · exact absurd h.symm (meta_ne_body _ _)
    · exact absurd h.symm (header_ne_body _ _)
    · exact append_body_inj _ _ h
  have hsome := diskFind_isSome_of_mem disk e' he'
  rw [hname', ← hy', hnometa] at hsome
  simp at hsome

theorem readDiskQueue_drops_fragments_witness :
    diskFind (readDiskQueue (sampleQueue acceptAll) sampleStartup sampleDirFragments).disk
        "m4.meta" = none ∧
    diskFind (readDiskQueue (sampleQueue acceptAll) sampleStartup sampleDirFragments).disk
        "m4.body" = none ∧
    (∀ t, (t, "m4") ∉ (readDiskQueue (sampleQueue acceptAll) sampleStartup
        sampleDirFragments).wheel) ∧
    sampleFile "m6.body" FileData.bytes ∈
      (readDiskQueue (sampleQueue acceptAll) sampleStartup sampleDirFragments).disk := by
  obtain ⟨h1, _, h3, _⟩ :=
    readDiskQueue_drops_fragments (sampleQueue acceptAll) sampleStartup sampleDirFragments
      (by decide)
  obtain ⟨hfiles, hwheel⟩ := h1 "m4" (sampleStored "m4") (by decide) (Or.inl (by decide))
  exact ⟨hfiles "m4.meta" (by decide), hfiles "m4.body" (by decide), hwheel,
    h3 (sampleFile "m6.body" FileData.bytes) (by decide) "m6" (Or.inr (by decide)) (by decide)⟩

theorem startupDeadline_eq_max (q : Queue) (env : StartupEnv) (md : QueueMetadata)
    (hnow : env.untilNow = env.addNow) :
    startupDeadline q env md =
      max (md.LastAttempt + retryDelay q md.TriesCount) (env.addNow + q.postInitDelay) := by
  unfold startupDeadline
  simp only []
  split
  · rw [max_eq_right (by omega)]
  · rw [max_eq_left (by omega)]

theorem startupDeadline_ge (q : Queue) (env : StartupEnv) (md : QueueMetadata)
    (hnow : env.untilNow ≤ env.addNow) :
    env.untilNow + q.postInitDelay ≤ startupDeadline q env md := by
  unfold startupDeadline
  simp only []
  split <;> omega

/-- C12 as stated fails. The triple of `m1`, whose metadata does not parse, is
still in the directory after `readDiskQueue` and has no entry in the wheel. For
the message `m3`, tried 30 times, the int64 product of 15 minutes and `2 ^ 29`
overflows, so its deadline is not `last_attempt + initial_retry_time * 2 ^ 29`.
The message `m2`, stored at time 1001 and never tried (`TriesCount = 0`), is
scheduled at `now + postInitDelay`, which is earlier than 1001 plus
`initial_retry_time * retry_time_scale ^ (0 - 1)`, half of 15 minutes. -/
theorem readDiskQueue_wheel_counterexample :
    readDiskQueue (sampleQueueTries acceptAll 40) sampleStartup sampleDir =
      { disk := sampleDir,
        wheel := [(5000 + 10000000000, "m2"), (1001 + 3568474883551657984, "m3")] } ∧
    ((5000 + 10000000000 : Int) : ℚ) ≠
      max ((1001 : ℚ) + 900000000000 * (2 : ℚ) ^ ((0 : Int) - 1)) (5000 + 10000000000) ∧
    (1001 + 3568474883551657984 : Int) ≠
      max (1001 + 900000000000 * 2 ^ (30 - 1)) (5000 + 10000000000) := by
  refine ⟨by decide, ?_, by decide⟩
  norm_num

/-- C12, amended: after `readDiskQueue` the wheel holds exactly one entry for
each message id whose `.meta` file is read and parsed and whose `.header` and
`.body` are found by `os.Stat`, and no entry for any other id; the files of an
id whose metadata is not read or parsed, and those of a loaded id, stay in the
directory. The deadline of the entry is `max (last_attempt + delay)
(now + post_init_delay)`, never earlier than `post_init_delay` after startup,
where the delay is the int64 product
`initial_retry_time * time.Duration(math.Pow(retry_time_scale, tries_count - 1))`,
which is `initial_retry_time * retry_time_scale ^ (tries_count - 1)` for
`tries_count ≥ 1` whenever the power is below `2 ^ 53` and the product fits in
an int64. -/
theorem readDiskQueue_wheel (q : Queue) (env : StartupEnv) (disk : List DirEntry) (id : String)
    (hnodup : (disk.map (fun x => x.name)).Nodup) :
    (∀ md, readMessageMeta env.ioError disk id = some md →
      osStat env.ioError disk (id ++ ".header") = StatResult.found →
      osStat env.ioError disk (id ++ ".body") = StatResult.found →
      (readDiskQueue q env disk).wheel.filter (fun p => decide (p.2 = id)) =
        [(startupDeadline q env md, id)] ∧
      ∀ e ∈ disk, e.name ∈ filesOf id → e ∈ (readDiskQueue q env disk).disk) ∧
    ((readMessageMeta env.ioError disk id = none ∨
        osStat env.ioError disk (id ++ ".header") ≠ StatResult.found ∨
        osStat env.ioError disk (id ++ ".body") ≠ StatResult.found) →
      ∀ t, (t, id) ∉ (readDiskQueue q env disk).wheel) ∧
    (readMessageMeta env.ioError disk id = none →
      ∀ e ∈ disk, e.name ∈ filesOf id → e ∈ (readDiskQueue q env disk).disk) ∧
    (∀ md, env.untilNow = env.addNow →
      startupDeadline q env md =
        max (md.LastAttempt + retryDelay q md.TriesCount) (env.addNow + q.postInitDelay)) ∧
    (∀ md, env.untilNow ≤ env.addNow →
      env.untilNow + q.postInitDelay ≤ startupDeadline q env md) ∧
    (∀ n : Int, 1 ≤ n →
      q.retryTimeScale ^ (n - 1).toNat < 2 ^ 53 →
      -(2 ^ 63) ≤ q.initialRetryTime * (q.retryTimeScale : Int) ^ (n - 1).toNat →
      q.initialRetryTime * (q.retryTimeScale : Int) ^ (n - 1).toNat < 2 ^ 63 →
      retryDelay q n = q.initialRetryTime * (q.retryTimeScale : Int) ^ (n - 1).toNat) := by
  have hfilter := readDiskQueue_wheel_filter q env disk id hnodup
  refine ⟨?_, ?_, ?_, fun md h => startupDeadline_eq_max q env md h,
    fun md h => startupDeadline_ge q env md h,
    fun n hn hexact hlo hhi => retryDelay_of_fits q n hn hexact hlo hhi⟩
  · intro md hmeta hh hb
    have hv : verdict env.ioError disk id = Verdict.load md := by
      simp [verdict, hmeta, hh, hb]
    refine ⟨?_, fun e he hmem => readDiskQueue_keeps q env disk id hnodup (Or.inr ⟨md, hv⟩) e he hmem⟩
    rw [hfilter, hv]
    rfl
  · intro hnot t
    apply not_mem_wheel_of_filter_nil
    rw [hfilter]
    unfold verdict
    cases hr : readMessageMeta env.ioError disk id with
    | none => rfl
    | some md =>
      simp only []
      cases hh : osStat env.ioError disk (id ++ ".header") with
      | notExist => rfl
      | failed => rfl
      | found =>
        simp only []
        cases hb : osStat env.ioError disk (id ++ ".body") with
        | notExist => rfl
        | failed => rfl
        | found =>
          exfalso
          rcases hnot with h | h | h
          · rw [hr] at h; cases h
          · exact h hh
          · exact h hb
  · intro hnone e he hmem
    have hv : verdict env.ioError disk id = Verdict.skip := by
      simp [verdict, hnone]
    exact readDiskQueue_keeps q env disk id hnodup (Or.inl hv) e he hmem

theorem readDiskQueue_wheel_witness :
    (readDiskQueue (sampleQueue acceptAll) sampleStartup sampleDirFragments).wheel.filter
        (fun p => decide (p.2 = "m3")) = [(1001 + 900000000000, "m3")] ∧
    ∀ t, (t, "m5") ∉ (readDiskQueue (sampleQueue acceptAll) sampleStartup
      sampleDirFragments).wheel := by
  obtain ⟨h1, _⟩ := readDiskQueue_wheel (sampleQueue acceptAll) sampleStartup
    sampleDirFragments "m3" (by decide)
  obtain ⟨_, h2, _⟩ := readDiskQueue_wheel (sampleQueue acceptAll) sampleStartup
    sampleDirFragments "m5" (by decide)
  refine ⟨?_, h2 (Or.inr (Or.inr (by decide)))⟩
  rw [(h1 { sampleStored "m3" with TriesCount := 1 } (by decide) (by decide) (by decide)).1]
  decide

/-! ## `storeNewMessage`, `openMessage` and the worker -/

/-- C13, the code at the failing input: the body file cannot be created. The
header file, written by the same call, is still in the directory when
`storeNewMessage` returns the error (lines 536-539 return without removing it).
Likewise, when the encoding of the metadata fails, the created `.meta` file
stays. -/
theorem storeNewMessage_leaves_files :
    storeNewMessage (some StoreStep.createBody) [] (sampleMeta ["a@example.org"]) =
      (false, [sampleFile "msg1.header" (FileData.headerText true)],
        sampleMeta ["a@example.org"]) ∧
    (storeNewMessage (some StoreStep.encodeMeta) [] (sampleMeta ["a@example.org"])).2.1 =
      [sampleFile "msg1.meta" FileData.bytes] := by
  decide

/-- C18, the code at the failing input: the wheel dispatches `msg1`, whose
`.body` file is missing. `openMessage` removes `msg1.meta` and returns the empty
signal; the worker tests the error only and calls `tryDelivery` with the nil
metadata, which is dereferenced. -/
theorem worker_dereferences_nil_meta :
    openMessage (fun _ => false)
        [sampleFile "msg1.header" (FileData.headerText true),
         sampleFile "msg1.meta" (FileData.metaJSON (sampleMeta ["a@example.org"]))] "msg1" =
      (OpenResult.empty, [sampleFile "msg1.header" (FileData.headerText true)]) ∧
    workerDispatch sampleDeps (sampleQueue acceptAll) sampleEnv (fun _ => false)
        [sampleFile "msg1.header" (FileData.headerText true),
         sampleFile "msg1.meta" (FileData.metaJSON (sampleMeta ["a@example.org"]))] "msg1" [] =
      (WorkerOutcome.nilDereference, [sampleFile "msg1.header" (FileData.headerText true)]) := by
  decide

end Maddy
